import Mathlib

/-!
Game of Fifteen (`gameoffifteen.c`): board engine and game loop.

A shallow embedding of `init`, `move`, `won` and `main` from `src/gameoffifteen.c`.

Memory model.  The C program keeps one global `int board[DIM_MAX][DIM_MAX]` (9 × 9 = 81
cells, static storage, hence all zero at program start) and a global `int d`.  Only the
upper-left `d × d` corner is the playing grid; the remaining cells are padding that stays
in memory next to the grid.

`board[r][c]` designates the int at flat offset `DIM_MAX * r + c` from the start of the
array, for any integers `r`, `c`; this is how the neighbour expressions
`board[row][col+1]`, `board[row][col-1]`, `board[i][j+1]` and `board[i+1][j-(d-1)]` of the
source reach cells of the padding or of the neighbouring row.  The source has no bounds
check: an access whose offset falls outside `[0, 81)` reads or writes whatever int is
stored there, and the function goes on.  A `World` therefore holds, next to the array, the
ints stored around it (`outside`, by flat offset); nothing is assumed about them, and a
statement about a run is a statement for every `outside`.  The global `d` is kept apart
from `outside`: a read that leaves the array may find any value, also that of `d`, but a
write that leaves the array is taken not to land on `d`.  Such a write occurs only in a
call of `move` in which the tile matched an int outside the array.

Accesses `board[i][j]` whose indices are the loop counters `0 ≤ i, j < d` stay inside the
array because `main` has established `d ≤ DIM_MAX`; they use the total accessors `cell`
and `poke`.  `init` uses the checked accessors `rd` and `wr`, which tell whether an offset
is inside the array; `move` and `won` use `load` and `store`, which fall back on
`outside`.
-/

namespace Fifteen

/-- The constant `DIM_MIN` of the source. -/
def DIM_MIN : Nat := 3

/-- The constant `DIM_MAX` of the source. -/
def DIM_MAX : Nat := 9

/-- The two globals of the program: the dimension `d` and the 9 × 9 array `board`,
stored flat in row-major order with stride `DIM_MAX`. -/
structure State where
  d : Nat
  board : List Int
deriving DecidableEq

/-- Flat offset of `board[r][c]` inside the array object. -/
def flat (r c : Int) : Int := (DIM_MAX : Int) * r + c

/-- Checked read of `board[r][c]`: `none` when the offset leaves the array object. -/
def rd (s : State) (r c : Int) : Option Int :=
  if 0 ≤ flat r c then s.board[(flat r c).toNat]? else none

/-- Checked write `board[r][c] = v`: `none` when the offset leaves the array object. -/
def wr (s : State) (r c : Int) (v : Int) : Option State :=
  if 0 ≤ flat r c ∧ (flat r c).toNat < s.board.length then
    some { s with board := s.board.set (flat r c).toNat v }
  else none

/-- Read of `board[i][j]` for loop counters `i, j < d ≤ DIM_MAX`. -/
def cell (s : State) (i j : Nat) : Int := s.board.getD (DIM_MAX * i + j) 0

/-- Write `board[i][j] = v` for loop counters `i, j < d ≤ DIM_MAX`. -/
def poke (s : State) (i j : Nat) (v : Int) : State :=
  { s with board := s.board.set (DIM_MAX * i + j) v }

/-- The program state when `main` calls `init`: `d` has been validated and the array
still holds the zeros of static initialisation. -/
def start (d : Nat) : State := ⟨d, List.replicate (DIM_MAX * DIM_MAX) 0⟩

/-! ## `init` -/

/-- The nested fill loop of `init`: `board[i][j] = count; count--`. -/
def initFill (s : State) : State × Int :=
  (List.range s.d).foldl
    (fun acc i => (List.range s.d).foldl
      (fun acc j => (poke acc.1 i j acc.2, acc.2 - 1)) acc)
    (s, (s.d : Int) * (s.d : Int) - 1)

/-- The function `init` of the source. -/
def init (s : State) : Option State :=
  let s1 := (initFill s).1
  let d : Int := s.d
  if s.d % 2 = 0 then
    -- board[d-1][d-2] = board[d-1][d-3];
    (rd s1 (d - 1) (d - 3)).bind fun v =>
    (wr s1 (d - 1) (d - 2) v).bind fun s2 =>
    -- board[d-1][d-3] = 1;
    wr s2 (d - 1) (d - 3) 1
  else some s1

/-! ## The memory around the array -/

/-- The memory of a run: the ints stored around the array, by flat offset from the start
of the array, and the two globals. -/
structure World where
  outside : Int → Int
  st : State

/-- The read of `board[r][c]` as the source performs it: the cell of the array when the
offset is inside it, the int stored at that offset otherwise. -/
def load (w : World) (r c : Int) : Int :=
  match rd w.st r c with
  | some v => v
  | none => w.outside (flat r c)

/-- The write `board[r][c] = v` as the source performs it: into the array when the offset
is inside it, over the int stored at that offset otherwise. -/
def store (w : World) (r c : Int) (v : Int) : World :=
  match wr w.st r c v with
  | some s1 => { w with st := s1 }
  | none => { w with outside := Function.update w.outside (flat r c) v }

/-- A memory around the array that holds `0` everywhere. -/
def zeroOutside : Int → Int := fun _ => 0

/-! ## `move` -/

/-- The search loop of `move`: the last cell of the grid, in row-major order, that holds
`0`; `(0, 0)` when there is none. -/
def findBlank (s : State) : Nat × Nat :=
  (List.range s.d).foldl
    (fun rc i => (List.range s.d).foldl
      (fun rc j => if cell s i j = 0 then (i, j) else rc) rc)
    (0, 0)

/-- The body shared by the four branches of `move`:
`board[nr][nc] = 0; board[row][col] = tile; return true`. -/
def slide (w : World) (row col nr nc : Int) (tile : Int) : Bool × World :=
  (true, store (store w nr nc 0) row col tile)

/-- The function `move` of the source.  The neighbours are compared in the order of the
`if`/`else if` chain (up, down, right, left), none of them behind a bounds check; a later
neighbour is read only when the earlier comparisons failed. -/
def move (w : World) (tile : Int) : Bool × World :=
  let row : Int := (findBlank w.st).1
  let col : Int := (findBlank w.st).2
  if tile = load w (row - 1) col then slide w row col (row - 1) col tile
  else if tile = load w (row + 1) col then slide w row col (row + 1) col tile
  else if tile = load w row (col + 1) then slide w row col row (col + 1) tile
  else if tile = load w row (col - 1) then slide w row col row (col - 1) tile
  else (false, w)

/-- The index pairs `(r, c)` of the neighbour cells `board[r][c]` that `move` reads, in
the order in which it reads them (the chain stops at the first match). -/
def moveReads (w : World) (tile : Int) : List (Int × Int) :=
  let row : Int := (findBlank w.st).1
  let col : Int := (findBlank w.st).2
  (row - 1, col) ::
  if tile = load w (row - 1) col then []
  else (row + 1, col) ::
  if tile = load w (row + 1) col then []
  else (row, col + 1) ::
  if tile = load w row (col + 1) then []
  else [(row, col - 1)]

/-- The calls `move(t)` for the tiles `t` of a list, in order: the values returned and the
memory left. -/
def runMoves (w : World) : List Int → List Bool × World
  | [] => ([], w)
  | t :: ts =>
    let r := move w t
    let rest := runMoves r.2 ts
    (r.1 :: rest.1, rest.2)

/-! ## `won` -/

/-- Control flow out of a loop body of `won`: `return b`, or fall through with the
current value of `count`. -/
inductive Flow where
  | ret (b : Bool)
  | cont (count : Int)
deriving DecidableEq

/-- One execution of the inner loop body of `won` at `(i, j)`.  With `a = board[i][j]`,
`b = board[i][j+1]`, `c = board[i+1][j-(d-1)]`: `a < b || a < c` increments `count`,
otherwise `a > b || a > c` resets it; then `count == d*d-2` returns `true`. -/
def wonBody (w : World) (i j : Nat) (count : Int) : Flow :=
  let d : Int := w.st.d
  let a := cell w.st i j
  let b := load w i ((j : Int) + 1)
  let c := load w ((i : Int) + 1) ((j : Int) - (d - 1))
  let next (count : Int) : Flow :=
    if count = d * d - 2 then Flow.ret true else Flow.cont count
  if a < b ∨ a < c then next (count + 1)
  else if a > b ∨ a > c then next 0
  else next count

/-- The inner loop `for (int j = 0; j < d; j++)` of `won`, over the remaining columns. -/
def wonRow (w : World) (i : Nat) : List Nat → Int → Flow
  | [], count => Flow.cont count
  | j :: js, count =>
    match wonBody w i j count with
    | Flow.ret b => Flow.ret b
    | Flow.cont count1 => wonRow w i js count1

/-- The outer loop `for (int i = 0; i < d; i++)` of `won`, over the remaining rows. -/
def wonRows (w : World) : List Nat → Int → Flow
  | [], count => Flow.cont count
  | i :: is, count =>
    match wonRow w i (List.range w.st.d) count with
    | Flow.ret b => Flow.ret b
    | Flow.cont count1 => wonRows w is count1

/-- The function `won` of the source. -/
def won (w : World) : Bool :=
  match wonRows w (List.range w.st.d) 0 with
  | Flow.ret b => b
  | Flow.cont _ => false

/-! ## Vocabulary of the specification -/

/-- The `d × d` grid read in row-major order. -/
def cells (s : State) : List Int :=
  (List.range (s.d * s.d)).map fun k => cell s (k / s.d) (k % s.d)

/-- The grid holds each of `0, …, d² − 1` exactly once. -/
def HoldsEachOnce (s : State) : Prop :=
  ∀ v ∈ List.range (s.d * s.d), (cells s).count (v : Int) = 1

instance (s : State) : Decidable (HoldsEachOnce s) := by
  unfold HoldsEachOnce; infer_instance

/-- Every cell of the array outside the `d × d` grid holds `0` and the array has its 81
cells: the shape of the memory in every run of the program, where the padding keeps the
zeros of static initialisation. -/
def PadZero (s : State) : Prop :=
  s.board.length = DIM_MAX * DIM_MAX ∧
  ∀ k ∈ List.range (DIM_MAX * DIM_MAX),
    (s.d ≤ k / DIM_MAX ∨ s.d ≤ k % DIM_MAX) → s.board.getD k 0 = 0

instance (s : State) : Decidable (PadZero s) := by
  unfold PadZero; infer_instance

/-- The winning configuration: row-major reading gives `1, 2, …, d² − 1` followed by `0`. -/
def Solved (s : State) : Prop :=
  cells s = (List.range (s.d * s.d - 1)).map (fun k => (k : Int) + 1) ++ [0]

instance (s : State) : Decidable (Solved s) := by
  unfold Solved; infer_instance

/-- A `d × d` board given by its rows, placed in the zero-initialised array. -/
def ofRows (d : Nat) (rows : List (List Int)) : State :=
  ⟨d, (List.range (DIM_MAX * DIM_MAX)).map fun k =>
    ((rows.getD (k / DIM_MAX) []).getD (k % DIM_MAX) 0)⟩

/-- The tiles of the grid in row-major order (the empty cell left out). -/
def tiles (s : State) : List Int := (cells s).filter fun v => v ≠ 0

/-- Number of inversions of a sequence: pairs in which the larger value comes first. -/
def inversions : List Int → Nat
  | [] => 0
  | x :: xs => (xs.filter fun y => y < x).length + inversions xs

/-- The cell holding `tile` shares an edge with the cell holding `0`, both inside the
`d × d` grid. -/
def EdgeAdjacent (s : State) (tile : Int) : Prop :=
  ∃ i ∈ List.range s.d, ∃ j ∈ List.range s.d, cell s i j = 0 ∧
    ((i + 1 < s.d ∧ cell s (i + 1) j = tile) ∨ (1 ≤ i ∧ cell s (i - 1) j = tile) ∨
     (j + 1 < s.d ∧ cell s i (j + 1) = tile) ∨ (1 ≤ j ∧ cell s i (j - 1) = tile))

instance (s : State) (tile : Int) : Decidable (EdgeAdjacent s tile) := by
  unfold EdgeAdjacent; infer_instance

/-- The memories of a session of dimension `d` that starts with `outside` around the
array: the one left by `init` at program start, and every one left by a call `move(tile)`
with `tile` in `[1, d²]`, as `main` guarantees. -/
inductive Reachable (d : Nat) (outside : Int → Int) : World → Prop where
  | init {s : State} : init (start d) = some s → Reachable d outside ⟨outside, s⟩
  | step {w : World} {tile : Int} : Reachable d outside w →
      1 ≤ tile → tile ≤ (d : Int) * d → Reachable d outside (move w tile).2

/-! ## Boards used in the evaluations -/

/-- The 3 × 3 board `0 1 2 / 3 4 5 / 6 7 8`: ascending, but with the empty cell first. -/
def blankFirst3 : State := ofRows 3 [[0, 1, 2], [3, 4, 5], [6, 7, 8]]

/-- The 3 × 3 board left by `init`. -/
def fresh3 : State := ofRows 3 [[8, 7, 6], [5, 4, 3], [2, 1, 0]]

/-- The board `midRight3` after `move(6)`: the empty cell is in the top row. -/
def topRight3 : State := ofRows 3 [[8, 7, 0], [5, 4, 6], [2, 1, 3]]

/-- The 9 × 9 board left by `init` followed by `move(9)`: the empty cell is the last
cell of row 7 and tile 8 is in the first cell of row 8. -/
def rowEnd9 : State := ofRows 9
  [[80, 79, 78, 77, 76, 75, 74, 73, 72],
   [71, 70, 69, 68, 67, 66, 65, 64, 63],
   [62, 61, 60, 59, 58, 57, 56, 55, 54],
   [53, 52, 51, 50, 49, 48, 47, 46, 45],
   [44, 43, 42, 41, 40, 39, 38, 37, 36],
   [35, 34, 33, 32, 31, 30, 29, 28, 27],
   [26, 25, 24, 23, 22, 21, 20, 19, 18],
   [17, 16, 15, 14, 13, 12, 11, 10, 0],
   [8, 7, 6, 5, 4, 3, 2, 1, 9]]

/-- The board `rowEnd9` with tile 8 and the empty cell exchanged. -/
def rowEnd9After : State := ofRows 9
  [[80, 79, 78, 77, 76, 75, 74, 73, 72],
   [71, 70, 69, 68, 67, 66, 65, 64, 63],
   [62, 61, 60, 59, 58, 57, 56, 55, 54],
   [53, 52, 51, 50, 49, 48, 47, 46, 45],
   [44, 43, 42, 41, 40, 39, 38, 37, 36],
   [35, 34, 33, 32, 31, 30, 29, 28, 27],
   [26, 25, 24, 23, 22, 21, 20, 19, 18],
   [17, 16, 15, 14, 13, 12, 11, 10, 8],
   [0, 7, 6, 5, 4, 3, 2, 1, 9]]

/-- The board `topRight3` after tile 7 has moved into the empty cell. -/
def topMid3 : State := ofRows 3 [[8, 0, 7], [5, 4, 6], [2, 1, 3]]

/-- The 3 × 3 board `7 0 1 / 2 3 4 / 5 6 8`. -/
def falseWin3 : State := ofRows 3 [[7, 0, 1], [2, 3, 4], [5, 6, 8]]

/-- The 21 tiles that lead from `8 7 6 / 5 4 3 / 2 1 0` to `7 0 1 / 2 3 4 / 5 6 8`. -/
def falseWinTiles : List Int :=
  [1, 4, 5, 8, 7, 6, 3, 1, 4, 5, 8, 2, 5, 8, 6, 3, 1, 4, 8, 6, 3]

/-- The 9 × 9 board left by `init`. -/
def fresh9 : State := ofRows 9
  [[80, 79, 78, 77, 76, 75, 74, 73, 72],
   [71, 70, 69, 68, 67, 66, 65, 64, 63],
   [62, 61, 60, 59, 58, 57, 56, 55, 54],
   [53, 52, 51, 50, 49, 48, 47, 46, 45],
   [44, 43, 42, 41, 40, 39, 38, 37, 36],
   [35, 34, 33, 32, 31, 30, 29, 28, 27],
   [26, 25, 24, 23, 22, 21, 20, 19, 18],
   [17, 16, 15, 14, 13, 12, 11, 10, 9],
   [8, 7, 6, 5, 4, 3, 2, 1, 0]]

/-- The index pairs of the cells that one execution of the loop body of `won` at `(i, j)`
reads with a computed index: `board[i][j+1]` always, `board[i+1][j-(d-1)]` when
`board[i][j] < board[i][j+1]` is false. -/
def wonBodyReads (w : World) (i j : Nat) : List (Int × Int) :=
  ((i : Int), (j : Int) + 1) ::
  if cell w.st i j < load w i ((j : Int) + 1) then []
  else [((i : Int) + 1, (j : Int) - ((w.st.d : Int) - 1))]

/-- The reads of the inner loop of `won`, which stops where `wonRow` stops. -/
def wonRowReads (w : World) (i : Nat) : List Nat → Int → List (Int × Int)
  | [], _ => []
  | j :: js, count =>
    wonBodyReads w i j ++
    match wonBody w i j count with
    | Flow.cont count1 => wonRowReads w i js count1
    | Flow.ret _ => []

/-- The reads of the outer loop of `won`, which stops where `wonRows` stops. -/
def wonRowsReads (w : World) : List Nat → Int → List (Int × Int)
  | [], _ => []
  | i :: is, count =>
    wonRowReads w i (List.range w.st.d) count ++
    match wonRow w i (List.range w.st.d) count with
    | Flow.cont count1 => wonRowsReads w is count1
    | Flow.ret _ => []

/-- The index pairs `(r, c)` of the cells `board[r][c]` that `won` reads with a computed
index, in the order in which it reads them. -/
def wonReads (w : World) : List (Int × Int) :=
  wonRowsReads w (List.range w.st.d) 0

/-- The scan of `won` over an explicit list of cells `(i, j)`: the two nested loops
unrolled into one. -/
def scan (w : World) : List (Nat × Nat) → Int → Flow
  | [], count => Flow.cont count
  | ij :: rest, count =>
    match wonBody w ij.1 ij.2 count with
    | Flow.ret b => Flow.ret b
    | Flow.cont count1 => scan w rest count1

/-- The reads of `scan`. -/
def scanReads (w : World) : List (Nat × Nat) → Int → List (Int × Int)
  | [], _ => []
  | ij :: rest, count =>
    wonBodyReads w ij.1 ij.2 ++
    match wonBody w ij.1 ij.2 count with
    | Flow.cont count1 => scanReads w rest count1
    | Flow.ret _ => []

/-- The cells of the grid in the order in which `won` visits them. -/
def allPairs (d : Nat) : List (Nat × Nat) :=
  (List.range d).flatMap fun i => (List.range d).map fun j => (i, j)

/-- Both reads of the loop body of `won` at `(i, j)` stay inside the 81 cells of the
array. -/
def InsideCell (d : Nat) (ij : Nat × Nat) : Prop :=
  DIM_MAX * ij.1 + ij.2 + 1 < DIM_MAX * DIM_MAX ∧
  d ≤ DIM_MAX * (ij.1 + 1) + ij.2 + 1 ∧
  DIM_MAX * (ij.1 + 1) + ij.2 + 1 < DIM_MAX * DIM_MAX + d

instance (d : Nat) (ij : Nat × Nat) : Decidable (InsideCell d ij) := by
  unfold InsideCell; infer_instance

/-! ## `main` -/

/-- What a run of `main` does that the specification talks about: the messages it prints
and the calls of `init` and `move`. -/
inductive Event where
  | usage
  | badDimension
  | initCall
  | ftw
  | wrongMove
  | moveCall (tile : Int)
  | illegalMove
deriving DecidableEq

/-- How one pass through the body of `while (true)` ends: by `break`, or by reaching the
bottom of the body, with the memory and the events of the pass. -/
inductive Step where
  | stop (w : World) (ev : List Event)
  | next (w : World) (ev : List Event)

/-- One pass through the body of the `while (true)` loop of `main`.  `input` is the
integer that `scanf` delivers for this pass, `none` when there is none (`tile` is then
left uninitialised and the pass has no defined result).  Drawing, logging and sleeping
are left out. -/
def turn (w : World) (input : Option Int) : Option Step :=
  let d : Int := w.st.d
  if won w then some (Step.stop w [Event.ftw])
  else
    match input with
    | none => none
    | some tile =>
      if tile = 0 ∨ tile < 0 then some (Step.stop w [])
      else if tile > d * d then some (Step.stop w [Event.wrongMove])
      else if (move w tile).1 then some (Step.next (move w tile).2 [Event.moveCall tile])
      else some (Step.next (move w tile).2 [Event.moveCall tile, Event.illegalMove])

/-- The `while (true)` loop of `main` over the sequence of inputs: the final memory and
the events, `none` when the inputs run out before the loop is left. -/
def loop (w : World) : List Int → Option (World × List Event)
  | [] =>
    match turn w none with
    | some (Step.stop w1 ev) => some (w1, ev)
    | _ => none
  | tile :: rest =>
    match turn w (some tile) with
    | none => none
    | some (Step.stop w1 ev) => some (w1, ev)
    | some (Step.next w1 ev) =>
      (loop w1 rest).bind fun r => some (r.1, ev ++ r.2)

/-- The function `main` of the source as a function of the ints stored around the array,
the argument count, the value `atoi(argv[1])`, whether `fopen` succeeds, and the integers
read from standard input: the exit code and the events. -/
def main (outside : Int → Int) (argc : Int) (d : Int) (fileOpens : Bool)
    (inputs : List Int) : Option (Int × List Event) :=
  if argc ≠ 2 then some (1, [Event.usage])
  else if d < DIM_MIN ∨ d > DIM_MAX then some (2, [Event.badDimension])
  else if fileOpens = false then some (3, [])
  else
    (init (start d.toNat)).bind fun s0 =>
    (loop ⟨outside, s0⟩ inputs).bind fun r =>
    some (0, Event.initCall :: r.2)

/-- The canonical solved board of dimension `d` in the zero-initialised array: cell
`(i, j)` holds `i·d + j + 1`, except the bottom-right cell, which holds `0`. -/
def solvedBoard (d : Nat) : State :=
  ⟨d, (List.range (DIM_MAX * DIM_MAX)).map fun k =>
    if k / DIM_MAX < d ∧ k % DIM_MAX < d then
      if k / DIM_MAX = d - 1 ∧ k % DIM_MAX = d - 1 then 0
      else ((k / DIM_MAX * d + k % DIM_MAX + 1 : Nat) : Int)
    else 0⟩

/-- The 4 × 4 board left by `init`. -/
def fresh4 : State :=
  ofRows 4 [[15, 14, 13, 12], [11, 10, 9, 8], [7, 6, 5, 4], [3, 1, 2, 0]]

/-- The 3 × 3 winning configuration. -/
def solved3 : State := ofRows 3 [[1, 2, 3], [4, 5, 6], [7, 8, 0]]

/-! ## Arithmetic of offsets -/

theorem flat_div_mod (i j : Nat) (hj : j < DIM_MAX) :
    (DIM_MAX * i + j) / DIM_MAX = i ∧ (DIM_MAX * i + j) % DIM_MAX = j := by
  unfold DIM_MAX at *
  omega

theorem flat_lt (d i j : Nat) (hd : d ≤ DIM_MAX) (hi : i < d) (hj : j < d) :
    DIM_MAX * i + j < DIM_MAX * DIM_MAX := by
  unfold DIM_MAX at *
  omega

/-! ## `init` on the supported dimensions -/

set_option maxRecDepth 100000 in
/-- For each supported dimension `init` succeeds from the program start and leaves a
permutation board in a zero-padded array. -/
theorem init_spec (d : Nat) (h3 : 3 ≤ d) (h9 : d ≤ 9) :
    ∃ s, init (start d) = some s ∧ s.d = d ∧ PadZero s ∧ HoldsEachOnce s := by
  interval_cases d <;> exact ⟨_, rfl, rfl, by decide, by decide⟩

/-! ## The solved board -/

/-- Two states of the same dimension with zero padding and the same grid are equal. -/
theorem state_ext (s t : State) (hs : PadZero s) (ht : PadZero t) (hd : s.d = t.d)
    (h9 : s.d ≤ DIM_MAX)
    (hc : ∀ i < s.d, ∀ j < s.d, cell s i j = cell t i j) : s = t := by
  obtain ⟨d, b⟩ := s
  obtain ⟨d', b'⟩ := t
  simp only at hd h9 hc
  subst hd
  have hb : b = b' := by
    apply List.ext_getElem
    · rw [hs.1, ht.1]
    · intro k h1 h2
      have hk : k < DIM_MAX * DIM_MAX := by rw [← hs.1]; exact h1
      have e1 : b[k] = b.getD k 0 := (List.getD_eq_getElem b 0 h1).symm
      have e2 : b'[k] = b'.getD k 0 := (List.getD_eq_getElem b' 0 h2).symm
      rw [e1, e2]
      by_cases hin : k / DIM_MAX < d ∧ k % DIM_MAX < d
      · have := hc _ hin.1 _ hin.2
        unfold cell at this
        simp only [Nat.div_add_mod] at this
        exact this
      · have ho : d ≤ k / DIM_MAX ∨ d ≤ k % DIM_MAX := by omega
        rw [hs.2 k (List.mem_range.2 hk) ho, ht.2 k (List.mem_range.2 hk) ho]
  rw [hb]

theorem cell_solvedBoard (d i j : Nat) (hd : d ≤ DIM_MAX) (hi : i < d) (hj : j < d) :
    cell (solvedBoard d) i j =
      if i = d - 1 ∧ j = d - 1 then 0 else ((i : Int) * d + j + 1) := by
  have hj9 : j < DIM_MAX := lt_of_lt_of_le hj hd
  have hlt : DIM_MAX * i + j < DIM_MAX * DIM_MAX := flat_lt d i j hd hi hj
  unfold cell solvedBoard
  simp only
  rw [List.getD_eq_getElem _ _ (by simpa using hlt)]
  simp only [List.getElem_map, List.getElem_range, (flat_div_mod i j hj9).1,
    (flat_div_mod i j hj9).2, hi, hj, and_self, if_true]
  split_ifs
  · rfl
  · push_cast; ring

theorem padZero_solvedBoard (d : Nat) : PadZero (solvedBoard d) := by
  constructor
  · simp [solvedBoard]
  · intro k hk hout
    have hk' := List.mem_range.1 hk
    unfold solvedBoard
    simp only
    rw [List.getD_eq_getElem _ _ (by simpa using hk')]
    simp only [List.getElem_map, List.getElem_range]
    rw [if_neg]
    have hout' : d ≤ k / DIM_MAX ∨ d ≤ k % DIM_MAX := hout
    omega

/-! ## The checked accessors -/

theorem rd_val (s : State) (r c v : Int) (h : rd s r c = some v) :
    0 ≤ flat r c ∧ (flat r c).toNat < s.board.length ∧
      s.board.getD (flat r c).toNat 0 = v := by
  unfold rd at h
  split at h
  · rename_i h0
    obtain ⟨hlt, hv⟩ := List.getElem?_eq_some_iff.1 h
    refine ⟨h0, hlt, ?_⟩
    rw [List.getD_eq_getElem?_getD, h]; rfl
  · cases h

/-! ## Reads and writes through `load` and `store` -/

theorem load_some (out : Int → Int) (s : State) (r c v : Int) (h : rd s r c = some v) :
    load ⟨out, s⟩ r c = v := by
  simp only [load, h]

theorem load_none (out : Int → Int) (s : State) (r c : Int) (h : rd s r c = none) :
    load ⟨out, s⟩ r c = out (flat r c) := by
  simp only [load, h]

theorem store_some (out : Int → Int) (s s1 : State) (r c v : Int)
    (h : wr s r c v = some s1) : store ⟨out, s⟩ r c v = ⟨out, s1⟩ := by
  simp only [store, h]

theorem store_none (out : Int → Int) (s : State) (r c v : Int) (h : wr s r c v = none) :
    store ⟨out, s⟩ r c v = ⟨Function.update out (flat r c) v, s⟩ := by
  simp only [store, h]

/-- A branch of `move` whose two writes stay inside the array. -/
theorem slide_inside (out : Int → Int) (s s2 : State) (row col nr nc tile : Int)
    (h : (wr s nr nc 0).bind (fun s1 => wr s1 row col tile) = some s2) :
    slide ⟨out, s⟩ row col nr nc tile = (true, ⟨out, s2⟩) := by
  cases h1 : wr s nr nc 0 with
  | none => rw [h1] at h; cases h
  | some s1 =>
    rw [h1] at h
    simp only [Option.some_bind] at h
    simp only [slide, store_some out s s1 _ _ _ h1, store_some out s1 s2 _ _ _ h]

/-- A branch of `move` whose first write, `board[nr][nc] = 0`, lands outside the array. -/
theorem slide_outside (out : Int → Int) (s s2 : State) (row col nr nc tile : Int)
    (h1 : wr s nr nc 0 = none) (h2 : wr s row col tile = some s2) :
    slide ⟨out, s⟩ row col nr nc tile
      = (true, ⟨Function.update out (flat nr nc) 0, s2⟩) := by
  simp only [slide, store_none out s _ _ _ h1, store_some _ s s2 _ _ _ h2]

theorem store_d (w : World) (r c v : Int) : (store w r c v).st.d = w.st.d := by
  unfold store
  cases h : wr w.st r c v with
  | none => rfl
  | some s1 =>
    simp only
    unfold wr at h
    split at h
    · cases h; rfl
    · cases h

theorem move_d (w : World) (tile : Int) : (move w tile).2.st.d = w.st.d := by
  unfold move
  simp only
  split_ifs <;> simp only [slide, store_d]

/-- A rejected call of `move` leaves the memory as it was. -/
theorem move_false_spec (w : World) (tile : Int) (h : (move w tile).1 = false) :
    (move w tile).2 = w := by
  unfold move at h ⊢
  simp only at h ⊢
  split_ifs at h ⊢
  · simp [slide] at h
  · simp [slide] at h
  · simp [slide] at h
  · simp [slide] at h
  · rfl

/-! ## Evaluations of `move` -/

theorem findBlank_fresh3 : findBlank fresh3 = (2, 2) := by decide

theorem findBlank_topRight3 : findBlank topRight3 = (0, 2) := by decide

/-- On `8 7 6 / 5 4 3 / 2 1 0`, `move(5)` compares with 3, with two padding cells and
with 1, and rejects. -/
theorem move_fresh3_5 (out : Int → Int) :
    move ⟨out, fresh3⟩ 5 = (false, ⟨out, fresh3⟩) ∧
      moveReads ⟨out, fresh3⟩ 5 = [(1, 2), (3, 2), (2, 3), (2, 1)] := by
  have h1 : rd fresh3 (((findBlank fresh3).1 : Int) - 1) ((findBlank fresh3).2 : Int)
      = some 3 := by decide
  have h2 : rd fresh3 (((findBlank fresh3).1 : Int) + 1) ((findBlank fresh3).2 : Int)
      = some 0 := by decide
  have h3 : rd fresh3 ((findBlank fresh3).1 : Int) (((findBlank fresh3).2 : Int) + 1)
      = some 0 := by decide
  have h4 : rd fresh3 ((findBlank fresh3).1 : Int) (((findBlank fresh3).2 : Int) - 1)
      = some 1 := by decide
  constructor
  · unfold move
    simp only [load_some out fresh3 _ _ _ h1, load_some out fresh3 _ _ _ h2,
      load_some out fresh3 _ _ _ h3, load_some out fresh3 _ _ _ h4]
    rfl
  · unfold moveReads
    simp only [load_some out fresh3 _ _ _ h1, load_some out fresh3 _ _ _ h2,
      load_some out fresh3 _ _ _ h3, findBlank_fresh3]
    rfl

/-- On `8 7 0 / 5 4 6 / 2 1 3` the first comparison of `move` is with `board[-1][2]`, the
int stored 7 places before the array.  When that int equals `tile`, `move` overwrites it
with `0`, writes `tile` into the empty cell and returns `true`, wherever `tile` is. -/
theorem move_topRight3_hit (out : Int → Int) (tile : Int) (h : out (-7) = tile) :
    move ⟨out, topRight3⟩ tile
      = (true, ⟨Function.update out (-7) 0, poke topRight3 0 2 tile⟩) := by
  have h1 : rd topRight3 (((findBlank topRight3).1 : Int) - 1)
      ((findBlank topRight3).2 : Int) = none := by decide
  have hf : flat (((findBlank topRight3).1 : Int) - 1) ((findBlank topRight3).2 : Int)
      = -7 := by decide
  have hw : wr topRight3 (((findBlank topRight3).1 : Int) - 1)
      ((findBlank topRight3).2 : Int) 0 = none := by decide
  have hw2 : wr topRight3 ((findBlank topRight3).1 : Int) ((findBlank topRight3).2 : Int)
      tile = some (poke topRight3 0 2 tile) := by
    have hl : (2 : Nat) < topRight3.board.length := by decide
    rw [findBlank_topRight3]
    unfold wr poke flat DIM_MAX
    simp [hl]
  unfold move
  simp only [load_none out topRight3 _ _ h1, hf, h, if_true]
  rw [slide_outside out topRight3 _ _ _ _ _ _ hw hw2, hf]

/-- The first read of `move` on `8 7 0 / 5 4 6 / 2 1 3` is `board[-1][2]`. -/
theorem moveReads_topRight3 (out : Int → Int) (tile : Int) :
    (moveReads ⟨out, topRight3⟩ tile).head? = some (-1, 2) ∧
    (out (-7) ≠ tile → tile = 7 →
      moveReads ⟨out, topRight3⟩ tile = [(-1, 2), (1, 2), (0, 3), (0, 1)]) := by
  have h1 : rd topRight3 (((findBlank topRight3).1 : Int) - 1)
      ((findBlank topRight3).2 : Int) = none := by decide
  have hf : flat (((findBlank topRight3).1 : Int) - 1) ((findBlank topRight3).2 : Int)
      = -7 := by decide
  have h2 : rd topRight3 (((findBlank topRight3).1 : Int) + 1)
      ((findBlank topRight3).2 : Int) = some 6 := by decide
  have h3 : rd topRight3 ((findBlank topRight3).1 : Int)
      (((findBlank topRight3).2 : Int) + 1) = some 0 := by decide
  constructor
  · unfold moveReads
    simp only [findBlank_topRight3, List.head?_cons]
    rfl
  · intro h e7
    subst e7
    unfold moveReads
    simp only [load_none out topRight3 _ _ h1, hf, load_some out topRight3 _ _ _ h2,
      load_some out topRight3 _ _ _ h3, findBlank_topRight3]
    rw [if_neg (fun e => h e.symm)]
    rfl
set_option maxRecDepth 100000 in
theorem init_fresh : init (start 3) = some fresh3 ∧ init (start 4) = some fresh4 ∧
    init (start 9) = some fresh9 := by
  decide

set_option maxRecDepth 100000 in
/-- On the 9 × 9 board of `init`, `move(9)` finds tile 9 above the empty cell. -/
theorem move_fresh9_9 (out : Int → Int) :
    move ⟨out, fresh9⟩ 9 = (true, ⟨out, rowEnd9⟩) := by
  have h1 : rd fresh9 (((findBlank fresh9).1 : Int) - 1) ((findBlank fresh9).2 : Int)
      = some 9 := by decide
  unfold move
  simp only [load_some out fresh9 _ _ _ h1, if_true]
  exact slide_inside out fresh9 rowEnd9 _ _ _ _ _ (by decide)

set_option maxRecDepth 100000 in
/-- On `rowEnd9` the empty cell is the last cell of row 7; `board[7][9]`, the third
neighbour `move` compares with, is the first cell of row 8, which holds 8. -/
theorem move_rowEnd9_8 (out : Int → Int) :
    move ⟨out, rowEnd9⟩ 8 = (true, ⟨out, rowEnd9After⟩) ∧
      moveReads ⟨out, rowEnd9⟩ 8 = [(6, 8), (8, 8), (7, 9)] := by
  have hb : findBlank rowEnd9 = (7, 8) := by decide
  have h1 : rd rowEnd9 (((findBlank rowEnd9).1 : Int) - 1) ((findBlank rowEnd9).2 : Int)
      = some 18 := by decide
  have h2 : rd rowEnd9 (((findBlank rowEnd9).1 : Int) + 1) ((findBlank rowEnd9).2 : Int)
      = some 9 := by decide
  have h3 : rd rowEnd9 ((findBlank rowEnd9).1 : Int) (((findBlank rowEnd9).2 : Int) + 1)
      = some 8 := by decide
  constructor
  · unfold move
    simp only [load_some out rowEnd9 _ _ _ h1, load_some out rowEnd9 _ _ _ h2,
      load_some out rowEnd9 _ _ _ h3]
    rw [if_pos trivial]
    exact slide_inside out rowEnd9 rowEnd9After _ _ _ _ _ (by decide)
  · unfold moveReads
    simp only [load_some out rowEnd9 _ _ _ h1, load_some out rowEnd9 _ _ _ h2,
      load_some out rowEnd9 _ _ _ h3, hb]
    rfl
/-! ## The scan of `won` as one loop -/

theorem wonRow_eq_scan (w : World) (i : Nat) (js : List Nat) (c : Int) :
    wonRow w i js c = scan w (js.map fun j => (i, j)) c := by
  induction js generalizing c with
  | nil => rfl
  | cons j js ih =>
    simp only [wonRow, List.map_cons, scan]
    cases wonBody w i j c with
    | ret b => rfl
    | cont c1 => exact ih c1

theorem scan_append (w : World) (l1 l2 : List (Nat × Nat)) (c : Int) :
    scan w (l1 ++ l2) c =
      match scan w l1 c with
      | Flow.ret b => Flow.ret b
      | Flow.cont c1 => scan w l2 c1 := by
  induction l1 generalizing c with
  | nil => rfl
  | cons ij l1 ih =>
    simp only [List.cons_append, scan]
    cases wonBody w ij.1 ij.2 c with
    | ret b => rfl
    | cont c1 => exact ih c1

theorem wonRows_eq_scan (w : World) (rows : List Nat) (c : Int) :
    wonRows w rows c =
      scan w (rows.flatMap fun i => (List.range w.st.d).map fun j => (i, j)) c := by
  induction rows generalizing c with
  | nil => rfl
  | cons i rows ih =>
    simp only [wonRows, List.flatMap_cons]
    rw [scan_append, wonRow_eq_scan]
    cases scan w (List.map (fun j => (i, j)) (List.range w.st.d)) c with
    | ret b => rfl
    | cont c1 => exact ih c1

theorem won_eq_scan (w : World) :
    won w = match scan w (allPairs w.st.d) 0 with
      | Flow.ret b => b
      | Flow.cont _ => false := by
  unfold won allPairs
  rw [wonRows_eq_scan]

theorem wonRowReads_eq_scanReads (w : World) (i : Nat) (js : List Nat) (c : Int) :
    wonRowReads w i js c = scanReads w (js.map fun j => (i, j)) c := by
  induction js generalizing c with
  | nil => rfl
  | cons j js ih =>
    simp only [wonRowReads, List.map_cons, scanReads]
    cases wonBody w i j c with
    | ret b => rfl
    | cont c1 => simp only [ih c1]

theorem scanReads_append (w : World) (l1 l2 : List (Nat × Nat)) (c : Int) :
    scanReads w (l1 ++ l2) c =
      scanReads w l1 c ++
      match scan w l1 c with
      | Flow.ret _ => []
      | Flow.cont c1 => scanReads w l2 c1 := by
  induction l1 generalizing c with
  | nil => simp [scanReads, scan]
  | cons ij l1 ih =>
    simp only [List.cons_append, scanReads, scan]
    cases wonBody w ij.1 ij.2 c with
    | ret b => simp
    | cont c1 =>
      simp only [List.append_assoc]
      exact congrArg _ (ih c1)

theorem wonRowsReads_eq_scanReads (w : World) (rows : List Nat) (c : Int) :
    wonRowsReads w rows c =
      scanReads w (rows.flatMap fun i => (List.range w.st.d).map fun j => (i, j)) c := by
  induction rows generalizing c with
  | nil => rfl
  | cons i rows ih =>
    simp only [wonRowsReads, List.flatMap_cons]
    rw [scanReads_append, wonRowReads_eq_scanReads, wonRow_eq_scan]
    cases scan w (List.map (fun j => (i, j)) (List.range w.st.d)) c with
    | ret b => rfl
    | cont c1 => simp only [ih c1]

theorem wonReads_eq_scanReads (w : World) :
    wonReads w = scanReads w (allPairs w.st.d) 0 := by
  unfold wonReads allPairs
  rw [wonRowsReads_eq_scanReads]

/-! ## Reads inside the array do not depend on the memory around it -/

theorem load_indep (out out' : Int → Int) (s : State) (r c : Int) (h0 : 0 ≤ flat r c)
    (h1 : (flat r c).toNat < s.board.length) :
    load ⟨out, s⟩ r c = load ⟨out', s⟩ r c := by
  have : rd s r c = some (s.board[(flat r c).toNat]) := by
    unfold rd
    rw [if_pos h0, List.getElem?_eq_getElem h1]
  rw [load_some out s r c _ this, load_some out' s r c _ this]

theorem insideCell_flat (d i j : Nat) (h : InsideCell d (i, j)) :
    (0 ≤ flat (i : Int) ((j : Int) + 1) ∧ (flat (i : Int) ((j : Int) + 1)).toNat < 81) ∧
    (0 ≤ flat ((i : Int) + 1) ((j : Int) - ((d : Int) - 1)) ∧
      (flat ((i : Int) + 1) ((j : Int) - ((d : Int) - 1))).toNat < 81) := by
  obtain ⟨h1, h2, h3⟩ := h
  unfold DIM_MAX at h1 h2 h3
  simp only at h1 h2 h3
  unfold flat DIM_MAX
  refine ⟨⟨by omega, by omega⟩, ⟨by omega, by omega⟩⟩

theorem wonBody_indep (out out' : Int → Int) (s : State) (hlen : s.board.length = 81)
    (i j : Nat) (h : InsideCell s.d (i, j)) (c : Int) :
    wonBody ⟨out, s⟩ i j c = wonBody ⟨out', s⟩ i j c ∧
      wonBodyReads ⟨out, s⟩ i j = wonBodyReads ⟨out', s⟩ i j := by
  obtain ⟨⟨a0, a1⟩, ⟨b0, b1⟩⟩ := insideCell_flat s.d i j h
  have e1 := load_indep out out' s _ _ a0 (by rw [hlen]; exact a1)
  have e2 := load_indep out out' s _ _ b0 (by rw [hlen]; exact b1)
  constructor
  · unfold wonBody
    simp only [e1, e2]
  · unfold wonBodyReads
    simp only [e1]

theorem scan_indep (out out' : Int → Int) (s : State) (hlen : s.board.length = 81)
    (l : List (Nat × Nat)) (h : ∀ ij ∈ l, InsideCell s.d ij) (c : Int) :
    scan ⟨out, s⟩ l c = scan ⟨out', s⟩ l c ∧
      scanReads ⟨out, s⟩ l c = scanReads ⟨out', s⟩ l c := by
  induction l generalizing c with
  | nil => exact ⟨rfl, rfl⟩
  | cons ij l ih =>
    have hij := h ij (List.mem_cons_self _ _)
    have hl : ∀ x ∈ l, InsideCell s.d x := fun x hx => h x (List.mem_cons_of_mem _ hx)
    obtain ⟨e1, e2⟩ := wonBody_indep out out' s hlen ij.1 ij.2 hij c
    simp only [scan, scanReads, e1, e2]
    cases wonBody ⟨out', s⟩ ij.1 ij.2 c with
    | ret b => exact ⟨rfl, rfl⟩
    | cont c1 =>
      obtain ⟨f1, f2⟩ := ih hl c1
      simp only [f1, f2, and_self]

/-- When the scan returns while still on cells whose reads are inside the array, `won`
returns the same value whatever is stored around the array. -/
theorem won_of_front (out : Int → Int) (s : State) (hlen : s.board.length = 81)
    (F R : List (Nat × Nat)) (hL : allPairs s.d = F ++ R)
    (hF : ∀ ij ∈ F, InsideCell s.d ij) (b : Bool)
    (hs : scan ⟨zeroOutside, s⟩ F 0 = Flow.ret b) : won ⟨out, s⟩ = b := by
  rw [won_eq_scan]
  simp only
  rw [hL, scan_append, (scan_indep out zeroOutside s hlen F hF 0).1, hs]

/-- When every read of the scan is inside the array, `won` and its reads do not depend
on what is stored around the array. -/
theorem won_indep (out : Int → Int) (s : State) (hlen : s.board.length = 81)
    (hF : ∀ ij ∈ allPairs s.d, InsideCell s.d ij) :
    won ⟨out, s⟩ = won ⟨zeroOutside, s⟩ ∧ wonReads ⟨out, s⟩ = wonReads ⟨zeroOutside, s⟩ := by
  rw [won_eq_scan, won_eq_scan, wonReads_eq_scanReads, wonReads_eq_scanReads]
  simp only
  rw [(scan_indep out zeroOutside s hlen _ hF 0).1, (scan_indep out zeroOutside s hlen _ hF 0).2]
  exact ⟨rfl, rfl⟩

set_option maxRecDepth 100000 in
/-- For `d ≤ 8` every read of the scan is inside the array; for `d = 9` every read but
those at the last cell is. -/
theorem insideCell_all (d : Nat) (h3 : 3 ≤ d) (h9 : d ≤ 9) :
    (∀ ij ∈ (allPairs d).dropLast, InsideCell d ij) ∧
      allPairs d = (allPairs d).dropLast ++ [(d - 1, d - 1)] ∧
      (d ≤ 8 → ∀ ij ∈ allPairs d, InsideCell d ij) := by
  interval_cases d <;> exact ⟨by decide, by decide, by decide⟩
/-! ## Values of `won` -/

/-- One iteration raises `count` by at most one, and returns only when the raised value
is `d*d - 2`. -/
theorem wonBody_bound (w : World) (i j : Nat) (c : Int)
    (hc0 : 0 ≤ c) (hcT : c < (w.st.d : Int) * w.st.d - 2) :
    (wonBody w i j c = Flow.ret true ∧ c + 1 = (w.st.d : Int) * w.st.d - 2) ∨
    (∃ c1, wonBody w i j c = Flow.cont c1 ∧ 0 ≤ c1 ∧ c1 ≤ c + 1 ∧
      c1 < (w.st.d : Int) * w.st.d - 2) := by
  unfold wonBody
  simp only
  split_ifs with h1 h2 h3 h4 h5
  · left; exact ⟨rfl, h2⟩
  · right; exact ⟨c + 1, rfl, by omega, le_refl _, by omega⟩
  · omega
  · right; exact ⟨0, rfl, le_refl _, by omega, by omega⟩
  · omega
  · right; exact ⟨c, rfl, hc0, by omega, hcT⟩

set_option maxRecDepth 100000 in
/-- On the 9 × 9 board of `init` every comparison up to the last cell resets `count`, so
the comparison at the last cell, with the int stored behind the array, cannot bring it to
79. -/
theorem won_fresh9 (out : Int → Int) : won ⟨out, fresh9⟩ = false := by
  obtain ⟨hF, hL, _⟩ := insideCell_all 9 (by decide) (by decide)
  have hlen : fresh9.board.length = 81 := by decide
  have hs : scan ⟨zeroOutside, fresh9⟩ (allPairs 9).dropLast 0 = Flow.cont 0 := by decide
  have hd : (fresh9.d : Int) * fresh9.d - 2 = 79 := by decide
  rw [won_eq_scan]
  simp only
  have e : allPairs fresh9.d = (allPairs 9).dropLast ++ [(9 - 1, 9 - 1)] := hL
  rw [e, scan_append, (scan_indep out zeroOutside fresh9 hlen _ hF 0).1, hs]
  simp only [scan]
  rcases wonBody_bound ⟨out, fresh9⟩ (9 - 1) (9 - 1) 0 (le_refl _)
    (by simp only; rw [hd]; decide) with ⟨_, h2⟩ | ⟨c1, h1, _⟩
  · simp only at h2; rw [hd] at h2; omega
  · rw [h1]

set_option maxRecDepth 100000 in
theorem won_solvedBoard (d : Nat) (h3 : 3 ≤ d) (h9 : d ≤ 9) (out : Int → Int) :
    won ⟨out, solvedBoard d⟩ = true := by
  obtain ⟨hF, hL, _⟩ := insideCell_all d h3 h9
  have hlen : (solvedBoard d).board.length = 81 := by simp [solvedBoard, DIM_MAX]
  apply won_of_front out (solvedBoard d) hlen _ _ hL hF true
  interval_cases d <;> decide

set_option maxRecDepth 100000 in
theorem won_fresh_small (d : Nat) (h3 : 3 ≤ d) (h8 : d ≤ 8) (out : Int → Int) :
    ∃ s, init (start d) = some s ∧ won ⟨out, s⟩ = false := by
  have key : ∀ s : State, s.d = d → s.board.length = 81 →
      won ⟨zeroOutside, s⟩ = false → won ⟨out, s⟩ = false := by
    intro s hs hlen hz
    obtain ⟨_, _, hA⟩ := insideCell_all d h3 (by omega)
    rw [(won_indep out s hlen (by rw [hs]; exact hA h8)).1, hz]
  interval_cases d <;> exact ⟨_, rfl, key _ rfl (by decide) (by decide)⟩
/-! ## The game loop -/

theorem loop_won (w : World) (inputs : List Int) (hw : won w = true) :
    loop w inputs = some (w, [Event.ftw]) := by
  cases inputs <;> simp [loop, turn, hw]

theorem loop_quit (w : World) (tile : Int) (rest : List Int) (hw : won w = false)
    (ht : tile ≤ 0) : loop w (tile :: rest) = some (w, []) := by
  have h0 : tile = 0 ∨ tile < 0 := by omega
  simp [loop, turn, hw, h0]

theorem loop_wrong (w : World) (tile : Int) (rest : List Int) (hw : won w = false)
    (ht : tile > (w.st.d : Int) * w.st.d) :
    loop w (tile :: rest) = some (w, [Event.wrongMove]) := by
  have hpos : (0 : Int) ≤ (w.st.d : Int) * w.st.d := by positivity
  have h0 : ¬ (tile = 0 ∨ tile < 0) := by omega
  simp only [loop, turn, hw]
  rw [if_neg (by simp), if_neg h0, if_pos ht]

theorem turn_move (w : World) (tile : Int) (hw : won w = false) (h1 : 1 ≤ tile)
    (h2 : tile ≤ (w.st.d : Int) * w.st.d) :
    ∃ ev, turn w (some tile) = some (Step.next (move w tile).2 ev) ∧
      Event.moveCall tile ∈ ev := by
  have h0 : ¬ (tile = 0 ∨ tile < 0) := by omega
  have hbig : ¬ tile > (w.st.d : Int) * w.st.d := by omega
  unfold turn
  simp only [hw]
  rw [if_neg (by simp), if_neg h0, if_neg hbig]
  by_cases hm : (move w tile).1 = true
  · rw [if_pos hm]; exact ⟨_, rfl, by simp⟩
  · rw [if_neg hm]; exact ⟨_, rfl, by simp⟩

/-- The loop is left as soon as an input `≤ 0` or `> d²` is read, if not before. -/
theorem loop_ends (inputs : List Int) (w : World)
    (h : ∃ t ∈ inputs, t ≤ 0 ∨ t > (w.st.d : Int) * w.st.d) :
    ∃ r, loop w inputs = some r := by
  induction inputs generalizing w with
  | nil => obtain ⟨t, ht, _⟩ := h; cases ht
  | cons tile rest ih =>
    cases hw : won w with
    | true => exact ⟨_, loop_won w _ hw⟩
    | false =>
      by_cases h0 : tile ≤ 0
      · exact ⟨_, loop_quit w tile rest hw h0⟩
      · by_cases hbig : tile > (w.st.d : Int) * w.st.d
        · exact ⟨_, loop_wrong w tile rest hw hbig⟩
        · obtain ⟨ev, hev, _⟩ := turn_move w tile hw (by omega) (by omega)
          have hrest : ∃ t ∈ rest, t ≤ 0 ∨
              t > ((move w tile).2.st.d : Int) * (move w tile).2.st.d := by
            obtain ⟨t, ht, hte⟩ := h
            rw [move_d]
            rcases List.mem_cons.1 ht with e | e
            · subst e; omega
            · exact ⟨t, e, hte⟩
          obtain ⟨r, hr⟩ := ih (move w tile).2 hrest
          refine ⟨(r.1, ev ++ r.2), ?_⟩
          simp only [loop, hev, hr, Option.some_bind]

/-- The four ways in which `main` returns. -/
theorem main_cases (out : Int → Int) (argc d : Int) (fileOpens : Bool) (inputs : List Int)
    (code : Int) (ev : List Event)
    (hm : main out argc d fileOpens inputs = some (code, ev)) :
    (argc ≠ 2 ∧ code = 1 ∧ ev = [Event.usage]) ∨
    (argc = 2 ∧ (d < 3 ∨ d > 9) ∧ code = 2 ∧ ev = [Event.badDimension]) ∨
    (argc = 2 ∧ ¬ (d < 3 ∨ d > 9) ∧ fileOpens = false ∧ code = 3 ∧ ev = []) ∨
    (argc = 2 ∧ ¬ (d < 3 ∨ d > 9) ∧ fileOpens = true ∧ code = 0) := by
  have hmin : ((DIM_MIN : Nat) : Int) = 3 := rfl
  have hmax : ((DIM_MAX : Nat) : Int) = 9 := rfl
  unfold main at hm
  rw [hmin, hmax] at hm
  by_cases ha : argc ≠ 2
  · rw [if_pos ha] at hm
    simp only [Option.some.injEq, Prod.mk.injEq] at hm
    exact Or.inl ⟨ha, hm.1.symm, hm.2.symm⟩
  · rw [if_neg ha] at hm
    have ha' : argc = 2 := not_not.1 ha
    by_cases hd : d < 3 ∨ d > 9
    · rw [if_pos hd] at hm
      simp only [Option.some.injEq, Prod.mk.injEq] at hm
      exact Or.inr (Or.inl ⟨ha', hd, hm.1.symm, hm.2.symm⟩)
    · rw [if_neg hd] at hm
      by_cases hf : fileOpens = false
      · rw [if_pos hf] at hm
        simp only [Option.some.injEq, Prod.mk.injEq] at hm
        exact Or.inr (Or.inr (Or.inl ⟨ha', hd, hf, hm.1.symm, hm.2.symm⟩))
      · rw [if_neg hf] at hm
        refine Or.inr (Or.inr (Or.inr ⟨ha', hd, by simpa using hf, ?_⟩))
        cases hi : init (start d.toNat) with
        | none => rw [hi] at hm; cases hm
        | some s0 =>
          rw [hi] at hm
          simp only [Option.some_bind] at hm
          cases hl : loop ⟨out, s0⟩ inputs with
          | none => rw [hl] at hm; cases hm
          | some r =>
            rw [hl] at hm
            simp only [Option.some_bind, Option.some.injEq, Prod.mk.injEq] at hm
            exact hm.1.symm
/-! ## Sessions in which no int before the array equals a tile that is moved -/

theorem findBlank_inner_lt (s : State) (i m : Nat) (n : Nat) (acc : Nat × Nat)
    (hi : i < m) (hn : n ≤ m) (h1 : acc.1 < m) (h2 : acc.2 < m) :
    ((List.range n).foldl (fun rc j => if cell s i j = 0 then (i, j) else rc) acc).1 < m ∧
    ((List.range n).foldl (fun rc j => if cell s i j = 0 then (i, j) else rc) acc).2 < m := by
  induction n with
  | zero => exact ⟨h1, h2⟩
  | succ n ih =>
    rw [List.range_succ, List.foldl_append]
    simp only [List.foldl_cons, List.foldl_nil]
    split_ifs
    · exact ⟨hi, by omega⟩
    · exact ih (by omega)

theorem findBlank_outer_lt (s : State) (m k : Nat) (n : Nat) (acc : Nat × Nat)
    (hn : n ≤ m) (hk : k ≤ m) (h1 : acc.1 < m) (h2 : acc.2 < m) :
    ((List.range n).foldl
      (fun rc i => (List.range k).foldl
        (fun rc j => if cell s i j = 0 then (i, j) else rc) rc) acc).1 < m ∧
    ((List.range n).foldl
      (fun rc i => (List.range k).foldl
        (fun rc j => if cell s i j = 0 then (i, j) else rc) rc) acc).2 < m := by
  induction n with
  | zero => exact ⟨h1, h2⟩
  | succ n ih =>
    rw [List.range_succ, List.foldl_append]
    simp only [List.foldl_cons, List.foldl_nil]
    obtain ⟨a1, a2⟩ := ih (by omega)
    exact findBlank_inner_lt s n m k _ (by omega) hk a1 a2

/-- The cell found by the search loop of `move` is inside the `d × d` grid. -/
theorem findBlank_lt (s : State) (m : Nat) (hm : 0 < m) (h : s.d ≤ m) :
    (findBlank s).1 < m ∧ (findBlank s).2 < m := by
  unfold findBlank
  exact findBlank_outer_lt s m s.d s.d (0, 0) h h hm hm

theorem rd_none (s : State) (r c : Int) (h : rd s r c = none) :
    flat r c < 0 ∨ s.board.length ≤ (flat r c).toNat := by
  unfold rd at h
  split at h
  · right; exact List.getElem?_eq_none_iff.1 h
  · left; omega

theorem wr_some (s : State) (r c v : Int) (h0 : 0 ≤ flat r c)
    (h1 : (flat r c).toNat < s.board.length) :
    wr s r c v = some { s with board := s.board.set (flat r c).toNat v } := by
  unfold wr
  rw [if_pos ⟨h0, h1⟩]

/-- A comparison of `move` that succeeds on a cell of the array: both writes stay inside
the array, whatever is stored around it. -/
theorem slide_of_rd (s : State) (hlen : s.board.length = 81)
    (hd : 0 < s.d ∧ s.d ≤ 9) (nr nc v tile : Int) (h : rd s nr nc = some v) :
    ∃ s2, s2.d = s.d ∧ s2.board.length = 81 ∧
      ∀ o : Int → Int, slide ⟨o, s⟩ ((findBlank s).1 : Int) ((findBlank s).2 : Int)
        nr nc tile = (true, ⟨o, s2⟩) := by
  obtain ⟨h0, h1, _⟩ := rd_val s nr nc v h
  obtain ⟨b1, b2⟩ := findBlank_lt s 9 (by decide) hd.2
  have e1 := wr_some s nr nc 0 h0 h1
  have hf : flat ((findBlank s).1 : Int) ((findBlank s).2 : Int)
      = ((9 * (findBlank s).1 + (findBlank s).2 : Nat) : Int) := by
    unfold flat DIM_MAX; push_cast; ring
  have e2 := wr_some { s with board := s.board.set (flat nr nc).toNat 0 }
    ((findBlank s).1 : Int) ((findBlank s).2 : Int) tile (by rw [hf]; exact Int.ofNat_nonneg _)
    (by rw [hf, Int.toNat_ofNat]; simp only [List.length_set]; omega)
  refine ⟨_, ?_, ?_, fun o => slide_inside o s _ _ _ _ _ tile (by rw [e1]; exact e2)⟩
  · rfl
  · simp only [List.length_set]; exact hlen

theorem load_cmp (out : Int → Int) (s : State) (r c tile : Int) (ht : tile ≠ 0)
    (h : rd s r c = none → out (flat r c) ≠ tile) :
    (tile = load ⟨out, s⟩ r c ↔ rd s r c = some tile) ∧
    (tile = load ⟨zeroOutside, s⟩ r c ↔ rd s r c = some tile) := by
  cases hr : rd s r c with
  | none =>
    rw [load_none out s r c hr, load_none zeroOutside s r c hr]
    constructor
    · constructor
      · intro e; exact absurd e.symm (h hr)
      · intro e; cases e
    · constructor
      · intro e; exact absurd e ht
      · intro e; cases e
  | some v =>
    rw [load_some out s r c v hr, load_some zeroOutside s r c v hr]
    constructor <;> constructor <;> intro e
    · rw [e]
    · simp only [Option.some.injEq] at e; exact e.symm
    · rw [e]
    · simp only [Option.some.injEq] at e; exact e.symm

/-- For `d ≤ 8` the reads of `move` that leave the array fall on the nine ints stored
directly before it.  When none of these equals `tile`, `move(tile)` does to the array
what it does with zeros around the array, and leaves the ints around the array alone. -/
theorem move_congr (out : Int → Int) (s : State) (hlen : s.board.length = 81)
    (hd : 0 < s.d ∧ s.d ≤ 8) (tile : Int) (ht : tile ≠ 0)
    (h : ∀ k, -9 ≤ k → k < 0 → out k ≠ tile) :
    ∃ b s2, s2.d = s.d ∧ s2.board.length = 81 ∧
      move ⟨out, s⟩ tile = (b, ⟨out, s2⟩) ∧
      move ⟨zeroOutside, s⟩ tile = (b, ⟨zeroOutside, s2⟩) := by
  have hd9 : 0 < s.d ∧ s.d ≤ 9 := ⟨hd.1, by omega⟩
  obtain ⟨b1, b2⟩ := findBlank_lt s 8 (by decide) hd.2
  have g : ∀ r c : Int, -9 ≤ flat r c → flat r c < 81 →
      rd s r c = none → out (flat r c) ≠ tile := by
    intro r c hb1 hb2 hn
    rcases rd_none s r c hn with h1 | h1
    · exact h _ hb1 h1
    · exfalso; rw [hlen] at h1; omega
  unfold move
  simp only
  obtain ⟨a1, a1'⟩ := load_cmp out s (((findBlank s).1 : Int) - 1) ((findBlank s).2 : Int)
    tile ht (g _ _ (by unfold flat DIM_MAX; omega) (by unfold flat DIM_MAX; omega))
  obtain ⟨a2, a2'⟩ := load_cmp out s (((findBlank s).1 : Int) + 1) ((findBlank s).2 : Int)
    tile ht (g _ _ (by unfold flat DIM_MAX; omega) (by unfold flat DIM_MAX; omega))
  obtain ⟨a3, a3'⟩ := load_cmp out s ((findBlank s).1 : Int) (((findBlank s).2 : Int) + 1)
    tile ht (g _ _ (by unfold flat DIM_MAX; omega) (by unfold flat DIM_MAX; omega))
  obtain ⟨a4, a4'⟩ := load_cmp out s ((findBlank s).1 : Int) (((findBlank s).2 : Int) - 1)
    tile ht (g _ _ (by unfold flat DIM_MAX; omega) (by unfold flat DIM_MAX; omega))
  by_cases c1 : rd s (((findBlank s).1 : Int) - 1) ((findBlank s).2 : Int) = some tile
  · obtain ⟨s2, e1, e2, e3⟩ := slide_of_rd s hlen hd9 _ _ _ tile c1
    rw [if_pos (a1.2 c1), if_pos (a1'.2 c1)]
    exact ⟨true, s2, e1, e2, e3 out, e3 zeroOutside⟩
  rw [if_neg (fun e => c1 (a1.1 e)), if_neg (fun e => c1 (a1'.1 e))]
  by_cases c2 : rd s (((findBlank s).1 : Int) + 1) ((findBlank s).2 : Int) = some tile
  · obtain ⟨s2, e1, e2, e3⟩ := slide_of_rd s hlen hd9 _ _ _ tile c2
    rw [if_pos (a2.2 c2), if_pos (a2'.2 c2)]
    exact ⟨true, s2, e1, e2, e3 out, e3 zeroOutside⟩
  rw [if_neg (fun e => c2 (a2.1 e)), if_neg (fun e => c2 (a2'.1 e))]
  by_cases c3 : rd s ((findBlank s).1 : Int) (((findBlank s).2 : Int) + 1) = some tile
  · obtain ⟨s2, e1, e2, e3⟩ := slide_of_rd s hlen hd9 _ _ _ tile c3
    rw [if_pos (a3.2 c3), if_pos (a3'.2 c3)]
    exact ⟨true, s2, e1, e2, e3 out, e3 zeroOutside⟩
  rw [if_neg (fun e => c3 (a3.1 e)), if_neg (fun e => c3 (a3'.1 e))]
  by_cases c4 : rd s ((findBlank s).1 : Int) (((findBlank s).2 : Int) - 1) = some tile
  · obtain ⟨s2, e1, e2, e3⟩ := slide_of_rd s hlen hd9 _ _ _ tile c4
    rw [if_pos (a4.2 c4), if_pos (a4'.2 c4)]
    exact ⟨true, s2, e1, e2, e3 out, e3 zeroOutside⟩
  rw [if_neg (fun e => c4 (a4.1 e)), if_neg (fun e => c4 (a4'.1 e))]
  exact ⟨false, s, rfl, hlen, rfl, rfl⟩

theorem runMoves_congr (out : Int → Int) (tiles : List Int) (s : State)
    (hlen : s.board.length = 81) (hd : 0 < s.d ∧ s.d ≤ 8)
    (h : ∀ t ∈ tiles, t ≠ 0 ∧ ∀ k, -9 ≤ k → k < 0 → out k ≠ t) :
    runMoves ⟨out, s⟩ tiles
      = ((runMoves ⟨zeroOutside, s⟩ tiles).1,
          ⟨out, (runMoves ⟨zeroOutside, s⟩ tiles).2.st⟩) := by
  induction tiles generalizing s with
  | nil => rfl
  | cons t ts ih =>
    obtain ⟨ht, hk⟩ := h t (List.mem_cons_self _ _)
    obtain ⟨b, s2, e1, e2, e3, e4⟩ := move_congr out s hlen hd t ht hk
    simp only [runMoves, e3, e4]
    rw [ih s2 e2 (by rw [e1]; exact hd) (fun x hx => h x (List.mem_cons_of_mem _ hx))]

theorem reachable_runMoves (d : Nat) (out : Int → Int) (tiles : List Int) (w : World)
    (hr : Reachable d out w) (h : ∀ t ∈ tiles, 1 ≤ t ∧ t ≤ (d : Int) * d) :
    Reachable d out (runMoves w tiles).2 := by
  induction tiles generalizing w with
  | nil => exact hr
  | cons t ts ih =>
    obtain ⟨h1, h2⟩ := h t (List.mem_cons_self _ _)
    simp only [runMoves]
    exact ih _ (Reachable.step hr h1 h2) (fun x hx => h x (List.mem_cons_of_mem _ hx))

theorem loop_move (w : World) (tile : Int) (rest : List Int) (hw : won w = false)
    (h1 : 1 ≤ tile) (h2 : tile ≤ (w.st.d : Int) * w.st.d) :
    loop w (tile :: rest) = (loop (move w tile).2 rest).bind fun r =>
      some (r.1, (if (move w tile).1 then [Event.moveCall tile]
        else [Event.moveCall tile, Event.illegalMove]) ++ r.2) := by
  have h0 : ¬ (tile = 0 ∨ tile < 0) := by omega
  have hbig : ¬ tile > (w.st.d : Int) * w.st.d := by omega
  have ht : turn w (some tile) = some (Step.next (move w tile).2
      (if (move w tile).1 then [Event.moveCall tile]
        else [Event.moveCall tile, Event.illegalMove])) := by
    unfold turn
    simp only [hw]
    rw [if_neg (by simp), if_neg h0, if_neg hbig]
    by_cases hm : (move w tile).1 = true
    · rw [if_pos hm, if_pos hm]
    · rw [if_neg hm, if_neg hm]
  simp only [loop, ht]

/-- For `d ≤ 8`, a session in which none of the nine ints stored directly before the array
equals an input prints what it prints with zeros around the array. -/
theorem loop_congr (out : Int → Int) (tiles : List Int) (s : State)
    (hlen : s.board.length = 81) (hd : 3 ≤ s.d ∧ s.d ≤ 8)
    (h : ∀ t ∈ tiles, t ≠ 0 ∧ ∀ k, -9 ≤ k → k < 0 → out k ≠ t) :
    (loop ⟨out, s⟩ tiles).map Prod.snd = (loop ⟨zeroOutside, s⟩ tiles).map Prod.snd := by
  induction tiles generalizing s with
  | nil =>
    have hw : won ⟨out, s⟩ = won ⟨zeroOutside, s⟩ :=
      (won_indep out s hlen ((insideCell_all s.d hd.1 (by omega)).2.2 hd.2)).1
    cases hz : won ⟨zeroOutside, s⟩ with
    | true => rw [loop_won _ _ (hw.trans hz), loop_won _ _ hz]; rfl
    | false => simp [loop, turn, hw.trans hz, hz]
  | cons t ts ih =>
    have hw : won ⟨out, s⟩ = won ⟨zeroOutside, s⟩ :=
      (won_indep out s hlen ((insideCell_all s.d hd.1 (by omega)).2.2 hd.2)).1
    cases hz : won ⟨zeroOutside, s⟩ with
    | true => rw [loop_won _ _ (hw.trans hz), loop_won _ _ hz]; rfl
    | false =>
      have hw1 := hw.trans hz
      by_cases h0 : t ≤ 0
      · rw [loop_quit _ _ _ hw1 h0, loop_quit _ _ _ hz h0]; rfl
      · by_cases hbig : t > (s.d : Int) * s.d
        · rw [loop_wrong _ _ _ hw1 hbig, loop_wrong _ _ _ hz hbig]; rfl
        · obtain ⟨ht, hk⟩ := h t (List.mem_cons_self _ _)
          obtain ⟨b, s2, e1, e2, e3, e4⟩ :=
            move_congr out s hlen ⟨by omega, hd.2⟩ t ht hk
          have hi := ih s2 e2 (by rw [e1]; exact hd)
            (fun x hx => h x (List.mem_cons_of_mem _ hx))
          have hle : t ≤ (s.d : Int) * s.d := by omega
          rw [loop_move _ _ _ hw1 (by omega) hle, loop_move _ _ _ hz (by omega) hle, e3, e4]
          simp only
          cases ha : loop ⟨out, s2⟩ ts with
          | none =>
            cases hb : loop ⟨zeroOutside, s2⟩ ts with
            | none => rfl
            | some r2 => rw [ha, hb] at hi; cases hi
          | some r1 =>
            cases hb : loop ⟨zeroOutside, s2⟩ ts with
            | none => rw [ha, hb] at hi; cases hi
            | some r2 =>
              rw [ha, hb] at hi
              simp only [Option.map_some', Option.some.injEq] at hi
              simp only [Option.some_bind, Option.map_some', hi]

theorem main_congr (out : Int → Int) (argc : Int) (d : Nat) (fileOpens : Bool)
    (inputs : List Int) (hd : 3 ≤ d ∧ d ≤ 8)
    (h : ∀ t ∈ inputs, t ≠ 0 ∧ ∀ k, -9 ≤ k → k < 0 → out k ≠ t) :
    main out argc d fileOpens inputs = main zeroOutside argc d fileOpens inputs := by
  obtain ⟨s0, hs0, hd0, hp, _⟩ := init_spec d hd.1 (by omega)
  have hl := loop_congr out inputs s0 hp.1 (by rw [hd0]; exact hd) h
  unfold main
  simp only [Int.toNat_ofNat, hs0, Option.some_bind]
  split_ifs
  · rfl
  · rfl
  · rfl
  · cases ha : loop ⟨out, s0⟩ inputs with
    | none =>
      cases hb : loop ⟨zeroOutside, s0⟩ inputs with
      | none => rfl
      | some r2 => rw [ha, hb] at hl; cases hl
    | some r1 =>
      cases hb : loop ⟨zeroOutside, s0⟩ inputs with
      | none => rw [ha, hb] at hl; cases hl
      | some r2 =>
        rw [ha, hb] at hl
        simp only [Option.map_some', Option.some.injEq] at hl
        simp only [Option.some_bind, hl]
/-! ## Claims about `init` -/

/-- C6: for `d` in `[3, 9]`, `init` returns, and the grid then contains each integer in
`[1, d² − 1]` exactly once and the value `0` exactly once. -/
theorem init_holds_each_value_once (d : Nat) (h3 : 3 ≤ d) (h9 : d ≤ 9) :
    ∃ s, init (start d) = some s ∧ s.d = d ∧
      (∀ v : Nat, 1 ≤ v → v ≤ d * d - 1 → (cells s).count (v : Int) = 1) ∧
      (cells s).count 0 = 1 := by
  obtain ⟨s, hs, hsd, _, hu⟩ := init_spec d h3 h9
  have hpos : 0 < d * d := Nat.mul_pos (by omega) (by omega)
  refine ⟨s, hs, hsd, ?_, ?_⟩
  · intro v _ hv
    exact hu v (List.mem_range.2 (by rw [hsd]; omega))
  · have := hu 0 (List.mem_range.2 (by rw [hsd]; exact hpos))
    simpa using this

/-- C6 at `d = 4`. -/
theorem init_holds_each_value_once_witness :
    (3 ≤ 4 ∧ 4 ≤ 9) ∧ ∃ s, init (start 4) = some s ∧ s.d = 4 ∧
      (∀ v : Nat, 1 ≤ v → v ≤ 4 * 4 - 1 → (cells s).count (v : Int) = 1) ∧
      (cells s).count 0 = 1 :=
  ⟨by decide, init_holds_each_value_once 4 (by decide) (by decide)⟩

set_option maxRecDepth 100000 in
/-- C7: for `d` in `[3, 9]`, after `init` the cell at row `i`, column `j` holds
`d² − 1 − (i·d + j)`, except that for even `d` cell `(d−1, d−3)` holds `1` and cell
`(d−1, d−2)` holds `2`; for odd `d` no cell deviates from the descending fill. -/
theorem init_cell_values (d : Nat) (h3 : 3 ≤ d) (h9 : d ≤ 9) :
    ∃ s, init (start d) = some s ∧ ∀ i < d, ∀ j < d, cell s i j =
      if d % 2 = 0 ∧ i = d - 1 ∧ j = d - 3 then 1
      else if d % 2 = 0 ∧ i = d - 1 ∧ j = d - 2 then 2
      else (d : Int) * d - 1 - (i * d + j) := by
  interval_cases d <;> exact ⟨_, rfl, by decide⟩

/-- C7 at `d = 4`. -/
theorem init_cell_values_witness :
    (3 ≤ 4 ∧ 4 ≤ 9) ∧ ∃ s, init (start 4) = some s ∧ ∀ i < 4, ∀ j < 4, cell s i j =
      if 4 % 2 = 0 ∧ i = 4 - 1 ∧ j = 4 - 3 then 1
      else if 4 % 2 = 0 ∧ i = 4 - 1 ∧ j = 4 - 2 then 2
      else ((4 : Nat) : Int) * (4 : Nat) - 1 - (i * (4 : Nat) + j) :=
  ⟨by decide, init_cell_values 4 (by decide) (by decide)⟩

set_option maxRecDepth 100000 in
/-- C8: for `d` in `[3, 9]`, odd or even, the board left by `init` has the empty cell in
the bottom-right corner, and its tiles read in row-major order are a rearrangement of
`1, …, d² − 1` with an even number of inversions. -/
theorem init_parity (d : Nat) (h3 : 3 ≤ d) (h9 : d ≤ 9) :
    ∃ s, init (start d) = some s ∧ cell s (d - 1) (d - 1) = 0 ∧
      (tiles s).Perm ((List.range (d * d - 1)).map fun k => (k : Int) + 1) ∧
      inversions (tiles s) % 2 = 0 := by
  interval_cases d <;> exact ⟨_, rfl, by decide, by decide, by decide⟩

/-- C8 at `d = 4`, where the exchange of tiles 1 and 2 makes the count even. -/
theorem init_parity_witness :
    (3 ≤ 4 ∧ 4 ≤ 9) ∧ ∃ s, init (start 4) = some s ∧ cell s (4 - 1) (4 - 1) = 0 ∧
      (tiles s).Perm ((List.range (4 * 4 - 1)).map fun k => (k : Int) + 1) ∧
      inversions (tiles s) % 2 = 0 :=
  ⟨by decide, init_parity 4 (by decide) (by decide)⟩

/-! ## Claims about `move` -/

set_option maxRecDepth 100000 in
/-- C2 (evaluation at the failing input): with `d = 9`, after `init` and `move(9)` the
empty cell is at `(7, 8)` and tile 8 at `(8, 0)`; the two cells share no edge, yet
`move(8)` returns `true` and exchanges them, because `board[row][col+1]` with `col = 8`
is the first cell of the next row.  This holds whatever is stored around the array. -/
theorem move_accepts_tile_across_row_end :
    init (start 9) = some fresh9 ∧
      (∀ out : Int → Int, move ⟨out, fresh9⟩ 9 = (true, ⟨out, rowEnd9⟩)) ∧
      HoldsEachOnce rowEnd9 ∧ PadZero rowEnd9 ∧
      cell rowEnd9 7 8 = 0 ∧ cell rowEnd9 8 0 = 8 ∧ ¬ EdgeAdjacent rowEnd9 8 ∧
      (∀ out : Int → Int, move ⟨out, rowEnd9⟩ 8 = (true, ⟨out, rowEnd9After⟩)) :=
  ⟨init_fresh.2.2, move_fresh9_9, by decide, by decide, by decide, by decide, by decide,
    fun out => (move_rowEnd9_8 out).1⟩

/-- C4: whenever `move(tile)` returns `false`, the memory after the call (the board and
everything around it) is the memory before the call, for every board, every dimension,
every tile and every content of the memory around the array. -/
theorem move_false_leaves_board_unchanged (w : World) (tile : Int)
    (h : (move w tile).1 = false) : (move w tile).2 = w :=
  move_false_spec w tile h

/-- C4 at the boards `8 7 6 / 5 4 3 / 2 1 0` and `8 7 0 / 5 4 6 / 2 1 3` (empty cell in
the top row) with tile 5, which `move` rejects, and at the 9 × 9 board of `init` with
tile 40. -/
theorem move_false_leaves_board_unchanged_witness :
    ((move ⟨zeroOutside, fresh3⟩ 5).1 = false ∧
        (move ⟨zeroOutside, fresh3⟩ 5).2 = ⟨zeroOutside, fresh3⟩) ∧
      ((move ⟨zeroOutside, topRight3⟩ 5).1 = false ∧
        (move ⟨zeroOutside, topRight3⟩ 5).2 = ⟨zeroOutside, topRight3⟩) ∧
      ((move ⟨zeroOutside, fresh9⟩ 40).1 = false ∧
        (move ⟨zeroOutside, fresh9⟩ 40).2 = ⟨zeroOutside, fresh9⟩) :=
  ⟨⟨by decide, move_false_leaves_board_unchanged _ 5 (by decide)⟩,
    ⟨by decide, move_false_leaves_board_unchanged _ 5 (by decide)⟩,
    ⟨by decide, move_false_leaves_board_unchanged _ 40 (by decide)⟩⟩

/-- C10 (evaluation at the failing input): `move` reads its neighbours without a bounds
check.  On `8 7 6 / 5 4 3 / 2 1 0` (`d = 3`) `move(5)` reads `board[3][2]` and
`board[2][3]`, row and column 3 being outside `[0, 2]`; on `8 7 0 / 5 4 6 / 2 1 3` the
first read of every call is `board[-1][2]`, at offset `-7`, outside the array, and when
the int there is not 7, `move(7)` goes on to read `board[0][3]` before it finds tile 7;
when the int there equals the tile, the out-of-grid position is taken as a match and
written to. -/
theorem move_reads_outside_grid :
    (∀ out : Int → Int, moveReads ⟨out, fresh3⟩ 5 = [(1, 2), (3, 2), (2, 3), (2, 1)] ∧
        move ⟨out, fresh3⟩ 5 = (false, ⟨out, fresh3⟩)) ∧
      HoldsEachOnce topRight3 ∧ EdgeAdjacent topRight3 7 ∧
      (∀ (out : Int → Int) (tile : Int),
        (moveReads ⟨out, topRight3⟩ tile).head? = some (-1, 2)) ∧
      flat (-1) 2 = -7 ∧ rd topRight3 (-1) 2 = none ∧
      (∀ out : Int → Int, out (-7) ≠ 7 →
        moveReads ⟨out, topRight3⟩ 7 = [(-1, 2), (1, 2), (0, 3), (0, 1)]) ∧
      (∀ (out : Int → Int) (tile : Int), out (-7) = tile →
        move ⟨out, topRight3⟩ tile
          = (true, ⟨Function.update out (-7) 0, poke topRight3 0 2 tile⟩)) :=
  ⟨fun out => ⟨(move_fresh3_5 out).2, (move_fresh3_5 out).1⟩, by decide, by decide,
    fun out tile => (moveReads_topRight3 out tile).1, by decide, by decide,
    fun out h => (moveReads_topRight3 out 7).2 h rfl, move_topRight3_hit⟩
/-! ## Claims about `won` -/

set_option maxRecDepth 100000 in
/-- C1 (evaluation at the failing input): on the 3 × 3 permutation board
`0 1 2 / 3 4 5 / 6 7 8`, which is not the winning configuration, `won` returns `true`,
whatever is stored around the array: its counter reaches `d*d - 2` at cell `(2, 0)`,
before the last two cells are looked at. -/
theorem won_true_on_unsolved_board :
    HoldsEachOnce blankFirst3 ∧ PadZero blankFirst3 ∧ ¬ Solved blankFirst3 ∧
      ∀ out : Int → Int, won ⟨out, blankFirst3⟩ = true := by
  refine ⟨by decide, by decide, by decide, fun out => ?_⟩
  rw [(won_indep out blankFirst3 (by decide) (by decide)).1]
  decide

/-- C11: for every `d` in `[3, 9]`, `won` returns `false` on the board left by `init`,
whatever is stored around the array.  (For `d = 9` the scan compares the last cell with
the int stored behind the array; `count` is 0 at that point and ends at 0 or 1.) -/
theorem won_false_on_fresh_board (d : Nat) (h3 : 3 ≤ d) (h9 : d ≤ 9) (out : Int → Int) :
    ∃ s, init (start d) = some s ∧ won ⟨out, s⟩ = false := by
  by_cases h8 : d ≤ 8
  · exact won_fresh_small d h3 h8 out
  · have e : d = 9 := by omega
    subst e
    exact ⟨fresh9, init_fresh.2.2, won_fresh9 out⟩

/-- C11 at `d = 4`, on `15 14 13 12 / 11 10 9 8 / 7 6 5 4 / 3 1 2 0`, and at `d = 9`. -/
theorem won_false_on_fresh_board_witness :
    (3 ≤ 4 ∧ 4 ≤ 9) ∧ init (start 4) = some fresh4 ∧ won ⟨zeroOutside, fresh4⟩ = false ∧
      (∃ s, init (start 4) = some s ∧ won ⟨zeroOutside, s⟩ = false) ∧
      (∃ s, init (start 9) = some s ∧ won ⟨fun _ => 9, s⟩ = false) :=
  ⟨by decide, init_fresh.2.1, by decide,
    won_false_on_fresh_board 4 (by decide) (by decide) zeroOutside,
    won_false_on_fresh_board 9 (by decide) (by decide) (fun _ => 9)⟩

/-- C14: for `d` in `[3, 9]`, on the board whose cell `(i, j)` holds `i·d + j + 1`, except
the bottom-right cell, which holds `0` (in the zero-padded array), `won` returns `true`,
whatever is stored around the array. -/
theorem won_true_on_solved_board (s : State) (h3 : 3 ≤ s.d) (h9 : s.d ≤ 9) (hp : PadZero s)
    (hc : ∀ i < s.d, ∀ j < s.d, cell s i j =
      if i = s.d - 1 ∧ j = s.d - 1 then 0 else ((i : Int) * s.d + j + 1))
    (out : Int → Int) : won ⟨out, s⟩ = true := by
  have hd : s.d ≤ DIM_MAX := h9
  have e : s = solvedBoard s.d := by
    apply state_ext s (solvedBoard s.d) hp (padZero_solvedBoard s.d) rfl hd
    intro i hi j hj
    rw [hc i hi j hj, cell_solvedBoard s.d i j hd hi hj]
  rw [e]
  exact won_solvedBoard s.d h3 h9 out

/-- C14 at the board `1 2 3 / 4 5 6 / 7 8 0`. -/
theorem won_true_on_solved_board_witness :
    (3 ≤ solved3.d ∧ solved3.d ≤ 9 ∧ PadZero solved3) ∧
      won ⟨zeroOutside, solved3⟩ = true :=
  ⟨by decide, won_true_on_solved_board solved3 (by decide) (by decide) (by decide)
    (by decide) zeroOutside⟩

set_option maxRecDepth 100000 in
/-- C16 (evaluation at the failing input): the scan of `won` reads cells outside the
grid.  On `8 7 6 / 5 4 3 / 2 1 0` (`d = 3`) it reads column 3 (`board[0][3]`), negative
columns (`board[1][-2]`) and row 3 (`board[3][0]`); on the 9 × 9 board `rowEnd9` it reads
`board[8][9]`, at offset 81, which is outside the array. -/
theorem won_reads_outside_grid :
    HoldsEachOnce fresh3 ∧ PadZero fresh3 ∧
      (∀ out : Int → Int, wonReads ⟨out, fresh3⟩ =
        [(0, 1), (1, -2), (0, 2), (1, -1), (0, 3), (1, 0),
         (1, 1), (2, -2), (1, 2), (2, -1), (1, 3), (2, 0),
         (2, 1), (3, -2), (2, 2), (3, -1), (2, 3), (3, 0)]) ∧
      HoldsEachOnce rowEnd9 ∧ PadZero rowEnd9 ∧
      (∀ out : Int → Int, (8, 9) ∈ wonReads ⟨out, rowEnd9⟩) ∧
      rd rowEnd9 8 9 = none ∧ flat 8 9 = 81 := by
  refine ⟨by decide, by decide, fun out => ?_, by decide, by decide, fun out => ?_,
    by decide, by decide⟩
  · rw [(won_indep out fresh3 (by decide) (by decide)).2]
    decide
  · obtain ⟨hF, hL, _⟩ := insideCell_all 9 (by decide) (by decide)
    have hlen : rowEnd9.board.length = 81 := by decide
    have hs : scan ⟨zeroOutside, rowEnd9⟩ (allPairs 9).dropLast 0 = Flow.cont 1 := by decide
    have e : allPairs rowEnd9.d = (allPairs 9).dropLast ++ [(9 - 1, 9 - 1)] := hL
    rw [wonReads_eq_scanReads]
    simp only
    rw [e, scanReads_append, (scan_indep out zeroOutside rowEnd9 hlen _ hF 0).1, hs]
    apply List.mem_append_right
    simp only [scanReads, wonBodyReads]
    apply List.mem_append_left
    exact List.mem_cons_self _ _
/-! ## Claims about the game loop and `main` -/

/-- C12: in one pass of the game loop on a board on which `won` returns `false`, whatever
is stored around the array: an input `tile ≤ 0` or `tile > d²` ends the loop with the
memory unchanged and without a call of `move`; an input with `1 ≤ tile ≤ d²` is passed
to `move`, and the loop goes on with the memory `move` left, accepting or rejecting,
which after a rejection is the memory before the pass. -/
theorem turn_spec (w : World) (tile : Int) (hw : won w = false) :
    ((tile ≤ 0 ∨ tile > (w.st.d : Int) * w.st.d) →
      ∃ ev, turn w (some tile) = some (Step.stop w ev) ∧ ∀ t, Event.moveCall t ∉ ev) ∧
    ((1 ≤ tile ∧ tile ≤ (w.st.d : Int) * w.st.d) →
      (∃ ev, turn w (some tile) = some (Step.next (move w tile).2 ev) ∧
        Event.moveCall tile ∈ ev) ∧
      ((move w tile).1 = false → (move w tile).2 = w)) := by
  constructor
  · intro h
    unfold turn
    simp only [hw]
    rw [if_neg (by simp)]
    by_cases h0 : tile = 0 ∨ tile < 0
    · exact ⟨[], by rw [if_pos h0], by simp⟩
    · have hbig : tile > (w.st.d : Int) * w.st.d := by omega
      exact ⟨[Event.wrongMove], by rw [if_neg h0, if_pos hbig], by simp⟩
  · intro h
    exact ⟨turn_move w tile hw h.1 h.2, move_false_spec w tile⟩

set_option maxRecDepth 100000 in
/-- C12 at the board `8 7 0 / 5 4 6 / 2 1 3` (empty cell in the top row): the inputs 0
and 10 end the loop, tile 5 is passed to `move` and rejected, tile 7 is passed to `move`
and accepted; and at the 9 × 9 board of `init`, where tile 9 is accepted. -/
theorem turn_spec_witness :
    won ⟨zeroOutside, topRight3⟩ = false ∧
      (∃ ev, turn ⟨zeroOutside, topRight3⟩ (some 0)
          = some (Step.stop ⟨zeroOutside, topRight3⟩ ev) ∧ ∀ t, Event.moveCall t ∉ ev) ∧
      (∃ ev, turn ⟨zeroOutside, topRight3⟩ (some 10)
          = some (Step.stop ⟨zeroOutside, topRight3⟩ ev) ∧ ∀ t, Event.moveCall t ∉ ev) ∧
      ((∃ ev, turn ⟨zeroOutside, topRight3⟩ (some 5)
          = some (Step.next (move ⟨zeroOutside, topRight3⟩ 5).2 ev) ∧
          Event.moveCall 5 ∈ ev) ∧
        (move ⟨zeroOutside, topRight3⟩ 5).1 = false ∧
        (move ⟨zeroOutside, topRight3⟩ 5).2 = ⟨zeroOutside, topRight3⟩) ∧
      ((∃ ev, turn ⟨zeroOutside, topRight3⟩ (some 7)
          = some (Step.next (move ⟨zeroOutside, topRight3⟩ 7).2 ev) ∧
          Event.moveCall 7 ∈ ev) ∧
        (move ⟨zeroOutside, topRight3⟩ 7).1 = true ∧
        (move ⟨zeroOutside, topRight3⟩ 7).2.st = topMid3) ∧
      won ⟨zeroOutside, fresh9⟩ = false ∧
      ((∃ ev, turn ⟨zeroOutside, fresh9⟩ (some 9)
          = some (Step.next (move ⟨zeroOutside, fresh9⟩ 9).2 ev) ∧
          Event.moveCall 9 ∈ ev) ∧
        (move ⟨zeroOutside, fresh9⟩ 9).2.st = rowEnd9) :=
  ⟨by decide,
    (turn_spec ⟨zeroOutside, topRight3⟩ 0 (by decide)).1 (by decide),
    (turn_spec ⟨zeroOutside, topRight3⟩ 10 (by decide)).1 (by decide),
    ⟨((turn_spec ⟨zeroOutside, topRight3⟩ 5 (by decide)).2 (by decide)).1, by decide,
      ((turn_spec ⟨zeroOutside, topRight3⟩ 5 (by decide)).2 (by decide)).2 (by decide)⟩,
    ⟨((turn_spec ⟨zeroOutside, topRight3⟩ 7 (by decide)).2 (by decide)).1, by decide,
      by decide⟩,
    won_fresh9 zeroOutside,
    ⟨((turn_spec ⟨zeroOutside, fresh9⟩ 9 (won_fresh9 zeroOutside)).2 (by decide)).1,
      by decide⟩⟩

/-- C13: whatever is stored around the array, `main` returns 1 exactly when the argument
count is not 2; otherwise 2 exactly when `d < 3` or `d > 9`; otherwise 3 exactly when the
log file cannot be opened; otherwise `init` returns and `main` returns 0 whenever the
game loop ends (no other exit code is possible then), the loop ends on a win, on an input
`≤ 0` and on an input `> d²`, and `main` does return 0 when the inputs contain an integer
`≤ 0` or `> d²`.  A run that returns 1, 2 or 3 calls neither `init` nor `move`. -/
theorem main_exit_codes (out : Int → Int) (argc d : Int) (fileOpens : Bool)
    (inputs : List Int) :
    ((main out argc d fileOpens inputs).map Prod.fst = some 1 ↔ argc ≠ 2) ∧
    (argc = 2 →
      ((main out argc d fileOpens inputs).map Prod.fst = some 2 ↔ (d < 3 ∨ d > 9))) ∧
    (argc = 2 → ¬ (d < 3 ∨ d > 9) →
      ((main out argc d fileOpens inputs).map Prod.fst = some 3 ↔ fileOpens = false)) ∧
    (argc = 2 → ¬ (d < 3 ∨ d > 9) → fileOpens = true →
      (∃ s0, init (start d.toNat) = some s0 ∧
        ∀ r, loop ⟨out, s0⟩ inputs = some r →
          main out argc d fileOpens inputs = some (0, Event.initCall :: r.2)) ∧
      (∀ code ev, main out argc d fileOpens inputs = some (code, ev) → code = 0) ∧
      (∀ w tile rest, won w = true ∨
          (won w = false ∧ (tile ≤ 0 ∨ tile > (w.st.d : Int) * w.st.d)) →
        ∃ r, loop w (tile :: rest) = some r) ∧
      ((∃ t ∈ inputs, t ≤ 0 ∨ t > d * d) →
        ∃ ev, main out argc d fileOpens inputs = some (0, ev))) ∧
    (∀ code ev, main out argc d fileOpens inputs = some (code, ev) → code ≠ 0 →
      Event.initCall ∉ ev ∧ ∀ t, Event.moveCall t ∉ ev) := by
  have hmin : ((DIM_MIN : Nat) : Int) = 3 := rfl
  have hmax : ((DIM_MAX : Nat) : Int) = 9 := rfl
  have key : ∀ c : Int, (main out argc d fileOpens inputs).map Prod.fst = some c →
      ∃ ev, main out argc d fileOpens inputs = some (c, ev) := by
    intro c h
    cases hm : main out argc d fileOpens inputs with
    | none => rw [hm] at h; cases h
    | some r =>
      rw [hm] at h
      simp only [Option.map_some', Option.some.injEq] at h
      exact ⟨r.2, by rw [← h]⟩
  refine ⟨⟨?_, ?_⟩, ?_, ?_, ?_, ?_⟩
  · intro h
    obtain ⟨ev, hm⟩ := key 1 h
    rcases main_cases _ _ _ _ _ _ _ hm with h1 | h1 | h1 | h1
    · exact h1.1
    · omega
    · omega
    · omega
  · intro ha
    unfold main
    rw [if_pos ha]; rfl
  · intro ha
    constructor
    · intro h
      obtain ⟨ev, hm⟩ := key 2 h
      rcases main_cases _ _ _ _ _ _ _ hm with h1 | h1 | h1 | h1
      · exact absurd ha h1.1
      · exact h1.2.1
      · omega
      · omega
    · intro hd
      unfold main
      rw [hmin, hmax, if_neg (by simp [ha]), if_pos hd]; rfl
  · intro ha hd
    constructor
    · intro h
      obtain ⟨ev, hm⟩ := key 3 h
      rcases main_cases _ _ _ _ _ _ _ hm with h1 | h1 | h1 | h1
      · exact absurd ha h1.1
      · omega
      · exact h1.2.2.1
      · omega
    · intro hf
      unfold main
      rw [hmin, hmax, if_neg (by simp [ha]), if_neg hd, if_pos hf]; rfl
  · intro ha hd hf
    obtain ⟨s0, hs0, hd0, _, _⟩ := init_spec d.toNat (by omega) (by omega)
    have hmain : ∀ r, loop ⟨out, s0⟩ inputs = some r →
        main out argc d fileOpens inputs = some (0, Event.initCall :: r.2) := by
      intro r hr
      unfold main
      rw [hmin, hmax, if_neg (by simp [ha]), if_neg hd, if_neg (by simp [hf]), hs0]
      simp only [Option.some_bind, hr]
    refine ⟨⟨s0, hs0, hmain⟩, ?_, ?_, ?_⟩
    · intro code ev hm
      rcases main_cases _ _ _ _ _ _ _ hm with h1 | h1 | h1 | h1
      · exact absurd ha h1.1
      · exact absurd h1.2.1 hd
      · rw [hf] at h1; exact absurd h1.2.2.1 (by simp)
      · exact h1.2.2.2
    · intro w tile rest h
      rcases h with h | ⟨h, h1 | h1⟩
      · exact ⟨_, loop_won w _ h⟩
      · exact ⟨_, loop_quit w tile rest h h1⟩
      · exact ⟨_, loop_wrong w tile rest h h1⟩
    · intro h
      have hdd : ((s0.d : Nat) : Int) = d := by rw [hd0]; omega
      obtain ⟨r, hr⟩ := loop_ends inputs ⟨out, s0⟩ (by
        obtain ⟨t, ht, hte⟩ := h
        refine ⟨t, ht, ?_⟩
        show t ≤ 0 ∨ t > ((s0.d : Nat) : Int) * s0.d
        rw [hdd]; exact hte)
      exact ⟨_, hmain r hr⟩
  · intro code ev hm hc
    rcases main_cases _ _ _ _ _ _ _ hm with h1 | h1 | h1 | h1
    · rw [h1.2.2]; simp
    · rw [h1.2.2.2]; simp
    · rw [h1.2.2.2.2]; simp
    · exact absurd h1.2.2.2 hc

set_option maxRecDepth 100000 in
/-- C13 on runs with zeros around the array: wrong argument count, `d = 10`, log file not
opened, the run `d = 3` with inputs 5 (rejected), 3, 6, 7 (accepted, the empty cell
passing through the top row), 0 (quit), and the run `d = 9` with inputs 9, 8 (accepted),
82 (greater than `d²`). -/
theorem main_exit_codes_witness :
    main zeroOutside 1 3 true [0] = some (1, [Event.usage]) ∧
      main zeroOutside 2 10 true [0] = some (2, [Event.badDimension]) ∧
      main zeroOutside 2 3 false [0] = some (3, []) ∧
      main zeroOutside 2 3 true [5, 3, 6, 7, 0] = some (0, [Event.initCall,
        Event.moveCall 5, Event.illegalMove, Event.moveCall 3, Event.moveCall 6,
        Event.moveCall 7]) ∧
      main zeroOutside 2 9 true [9, 8, 82] = some (0, [Event.initCall,
        Event.moveCall 9, Event.moveCall 8, Event.wrongMove]) ∧
      ((main zeroOutside 1 3 true [0]).map Prod.fst = some 1 ↔ (1 : Int) ≠ 2) ∧
      (∃ ev, main zeroOutside 2 9 true [9, 8, 82] = some (0, ev)) :=
  ⟨by decide, by decide, by decide, by decide, by decide,
    (main_exit_codes zeroOutside 1 3 true [0]).1,
    ((main_exit_codes zeroOutside 2 9 true [9, 8, 82]).2.2.2.1 (by decide) (by decide)
      rfl).2.2.2 (by decide)⟩

/-! ## Claims about sessions -/

set_option maxRecDepth 100000 in
/-- C15 (evaluation at the failing input): with `d = 3`, when none of the nine ints stored
directly before the array is a tile value 1..8, the 21 inputs
`1 4 5 8 7 6 3 1 4 5 8 2 5 8 6 3 1 4 8 6 3` after `init` are all accepted by `move` and
lead to the board `7 0 1 / 2 3 4 / 5 6 8`, which holds each of 0..8 once and is not the
winning configuration; on it `won` returns `true`, and `main` reports the win. -/
theorem won_true_on_reachable_unsolved_board (out : Int → Int)
    (h : ∀ k, -9 ≤ k → k < 0 → out k ≤ 0 ∨ 9 ≤ out k) :
    init (start 3) = some fresh3 ∧
      runMoves ⟨out, fresh3⟩ falseWinTiles
        = (List.replicate 21 true, ⟨out, falseWin3⟩) ∧
      Reachable 3 out ⟨out, falseWin3⟩ ∧
      HoldsEachOnce falseWin3 ∧ PadZero falseWin3 ∧ ¬ Solved falseWin3 ∧
      won ⟨out, falseWin3⟩ = true ∧
      main out 2 3 true falseWinTiles
        = some (0, Event.initCall :: falseWinTiles.map Event.moveCall ++ [Event.ftw]) := by
  have hb : ∀ t ∈ falseWinTiles, 1 ≤ t ∧ t ≤ 8 := by decide
  have hh : ∀ t ∈ falseWinTiles, t ≠ 0 ∧ ∀ k, -9 ≤ k → k < 0 → out k ≠ t := by
    intro t ht
    obtain ⟨t1, t2⟩ := hb t ht
    refine ⟨by omega, fun k k1 k2 => ?_⟩
    rcases h k k1 k2 with e | e <;> omega
  have e1 : (runMoves ⟨zeroOutside, fresh3⟩ falseWinTiles).1 = List.replicate 21 true := by
    decide
  have e2 : (runMoves ⟨zeroOutside, fresh3⟩ falseWinTiles).2.st = falseWin3 := by decide
  have hrun : runMoves ⟨out, fresh3⟩ falseWinTiles
      = (List.replicate 21 true, ⟨out, falseWin3⟩) := by
    rw [runMoves_congr out falseWinTiles fresh3 (by decide) (by decide) hh, e1, e2]
  have hreach : Reachable 3 out (runMoves ⟨out, fresh3⟩ falseWinTiles).2 :=
    reachable_runMoves 3 out falseWinTiles ⟨out, fresh3⟩ (Reachable.init init_fresh.1)
      (fun t ht => ⟨(hb t ht).1, by have := (hb t ht).2; omega⟩)
  rw [hrun] at hreach
  have hwon : won ⟨out, falseWin3⟩ = true := by
    rw [(won_indep out falseWin3 (by decide) (by decide)).1]
    decide
  have hmain : main zeroOutside 2 3 true falseWinTiles
      = some (0, Event.initCall :: falseWinTiles.map Event.moveCall ++ [Event.ftw]) := by
    decide
  have hc := main_congr out 2 3 true falseWinTiles (by decide) hh
  exact ⟨init_fresh.1, hrun, hreach, by decide, by decide, by decide, hwon,
    hc.trans hmain⟩

/-- C15 with zeros around the array. -/
theorem won_true_on_reachable_unsolved_board_witness :
    (∀ k : Int, -9 ≤ k → k < 0 → zeroOutside k ≤ 0 ∨ 9 ≤ zeroOutside k) ∧
      Reachable 3 zeroOutside ⟨zeroOutside, falseWin3⟩ ∧
      ¬ Solved falseWin3 ∧ won ⟨zeroOutside, falseWin3⟩ = true :=
  ⟨fun _ _ _ => Or.inl (le_refl 0),
    (won_true_on_reachable_unsolved_board zeroOutside
      (fun _ _ _ => Or.inl (le_refl 0))).2.2.1,
    by decide,
    (won_true_on_reachable_unsolved_board zeroOutside
      (fun _ _ _ => Or.inl (le_refl 0))).2.2.2.2.2.2.1⟩

end Fifteen
